import Mathlib

/-!
Verification of the h1sdr streaming DSP pipeline against its specification.

The definitions below are a shallow embedding of the Python sources:
 - src/web_sdr/pipeline/plugin_supervisor.py   (PluginSupervisor)
 - src/web_sdr/controllers/sdr_controller_v2.py (bounded data queue, set_demodulation)
 - src/web_sdr/dsp/spectrum_processor.py       (SpectrumProcessor)
 - src/web_sdr/dsp/demodulators.py             (AudioDemodulators)

Real-valued signal data is embedded over the real numbers; machine integers
over Nat/Int.  External library routines (scipy filters and resampling) are
collaborators outside this repository: they are modelled as parameters of a
record, and theorems that depend on their behaviour take their documented
contracts (length preservation, zero preservation) as hypotheses.
-/

namespace H1SDR

/-! ## Bounded acquisition queue

Embeds the drop-oldest push of `WebSDRControllerV2._acquisition_worker`
(sdr_controller_v2.py lines 417-426) on the queue created as
`Queue(maxsize=10)` (line 79).  The queue is a FIFO list whose head is the
oldest element; `put_nowait` on a full queue raises, the handler performs one
`get_nowait` (evicting the oldest) and retries the put. -/

def queueCapacity : Nat := 10

def pushDropOldest {α : Type} (cap : Nat) (q : List α) (x : α) : List α :=
  if q.length < cap then q ++ [x] else q.drop 1 ++ [x]

/-- Push a whole arrival sequence, oldest first, without any draining. -/
def pushAll {α : Type} (cap : Nat) (q : List α) (xs : List α) : List α :=
  xs.foldl (pushDropOldest cap) q

/-! ## Plugin supervisor

Embeds `PluginSupervisor` from plugin_supervisor.py.  A plugin is a name
together with a `process` function; a call that raises is embedded as an
`Except.error`.  `safeExecute` embeds `_safe_execute`: the exception is caught
at the point of invocation and turned into a failure result carrying the
plugin name.  Wall-clock timing is not modelled; the `executionTimeMs` field
is kept to mirror the record shape, always holding the elapsed-time slot. -/

structure Plugin (α : Type) where
  name : String
  process : α → Except String α

structure PluginResult (α : Type) where
  pluginName : String
  success : Bool
  data : Option α
  error : Option String
  executionTimeMs : ℚ

/-- Embeds `PluginSupervisor._safe_execute`: never propagates the error. -/
def safeExecute {α : Type} (p : Plugin α) (d : α) : PluginResult α :=
  match p.process d with
  | .ok r => ⟨p.name, true, some r, none, 0⟩
  | .error e => ⟨p.name, false, none, some e, 0⟩

/-- Counters of `PluginSupervisor`: `total_executions`, `total_failures` and
the per-name `plugin_stats` dict (success and failure counts). -/
structure SupervisorState where
  totalExecutions : Nat
  totalFailures : Nat
  statsSuccess : String → Nat
  statsFailure : String → Nat

def SupervisorState.init : SupervisorState :=
  ⟨0, 0, fun _ => 0, fun _ => 0⟩

/-- The per-result statistics update performed in the result loop of
`run_with_supervision` (plugin_supervisor.py lines 85-97). -/
def updateStats {α : Type} (s : SupervisorState) (r : PluginResult α) : SupervisorState :=
  if r.success then
    { s with statsSuccess := fun n =>
        if n = r.pluginName then s.statsSuccess n + 1 else s.statsSuccess n }
  else
    { s with
      totalFailures := s.totalFailures + 1
      statsFailure := fun n =>
        if n = r.pluginName then s.statsFailure n + 1 else s.statsFailure n }

/-- Embeds `PluginSupervisor.run_with_supervision`: one dispatch cycle.
Every plugin is wrapped by `safeExecute`, all results (successes and
failures) are collected, counters are updated, and the full result list is
returned unconditionally. -/
def runWithSupervision {α : Type} (s : SupervisorState) (plugins : List (Plugin α))
    (d : α) : SupervisorState × List (PluginResult α) :=
  let s1 : SupervisorState := { s with totalExecutions := s.totalExecutions + 1 }
  let results := plugins.map (fun p => safeExecute p d)
  (results.foldl updateStats s1, results)

/-- `n` successive dispatch cycles, cycle `k` processing chunk `chunks k`. -/
def dispatchCycles {α : Type} (plugins : List (Plugin α)) (chunks : Nat → α) :
    Nat → SupervisorState → SupervisorState
  | 0, s => s
  | n + 1, s =>
      dispatchCycles plugins (fun k => chunks (k + 1)) n
        (runWithSupervision s plugins (chunks 0)).1

/-- Whether a plugin's `process` call raises on input `d`. -/
def callFails {α : Type} (p : Plugin α) (d : α) : Bool :=
  match p.process d with
  | .ok _ => false
  | .error _ => true

/-! ## NumPy primitives used by the spectrum processor

Lists model 1-D numpy arrays.  Elementwise binary operations follow numpy's
1-D broadcasting: defined when the lengths agree or one operand has length
one; on any other mismatch numpy raises, modelled as `none` (the processor's
try/except turns this into the empty-array return). -/

def npBroadcast {α β γ : Type} (f : α → β → γ) (a : List α) (b : List β) :
    Option (List γ) :=
  if a.length = b.length then some (List.zipWith f a b)
  else
    match a, b with
    | [x], _ => some (b.map (fun y => f x y))
    | _, [y] => some (a.map (fun x => f x y))
    | _, _ => none

/-- `np.fft.fftfreq(n, 1/sr)`: bin `k` maps to `k*sr/n` for `k < ceil(n/2)`
and to `(k-n)*sr/n` otherwise. -/
noncomputable def npFftfreq (n : Nat) (sr : ℝ) : List ℝ :=
  (List.range n).map fun (k : Nat) =>
    if k < (n + 1) / 2 then (k : ℝ) * sr / (n : ℝ)
    else ((k : ℝ) - (n : ℝ)) * sr / (n : ℝ)

/-- `np.fft.fftshift` on a 1-D array: swap the two halves, the split point at
`ceil(n/2)`. -/
def npFftshift {α : Type} (x : List α) : List α :=
  x.drop ((x.length + 1) / 2) ++ x.take ((x.length + 1) / 2)

/-- `np.fft.fft`: the discrete Fourier transform
`X[k] = sum_j x[j] * exp(-2*pi*i*j*k/n)`. -/
noncomputable def npFft (x : List ℂ) : List ℂ :=
  (List.range x.length).map fun (k : Nat) =>
    ∑ j ∈ Finset.range x.length,
      x.getD j 0 *
        Complex.exp (-2 * (Real.pi : ℂ) * Complex.I * (k : ℂ) * (j : ℂ) / (x.length : ℂ))

/-- `np.hanning(m)` (one for `m = 1`, empty for `m = 0`). -/
noncomputable def npHanning (m : Nat) : List ℝ :=
  if m = 1 then [1]
  else (List.range m).map fun (j : Nat) =>
    0.5 - 0.5 * Real.cos (2 * Real.pi * (j : ℝ) / ((m : ℝ) - 1))

/-- `np.hamming(m)`. -/
noncomputable def npHamming (m : Nat) : List ℝ :=
  if m = 1 then [1]
  else (List.range m).map fun (j : Nat) =>
    0.54 - 0.46 * Real.cos (2 * Real.pi * (j : ℝ) / ((m : ℝ) - 1))

/-- `np.blackman(m)`. -/
noncomputable def npBlackman (m : Nat) : List ℝ :=
  if m = 1 then [1]
  else (List.range m).map fun (j : Nat) =>
    0.42 - 0.5 * Real.cos (2 * Real.pi * (j : ℝ) / ((m : ℝ) - 1)) +
      0.08 * Real.cos (4 * Real.pi * (j : ℝ) / ((m : ℝ) - 1))

/-- Modified Bessel function of the first kind, order zero (power series). -/
noncomputable def besselI0 (x : ℝ) : ℝ :=
  tsum fun k : ℕ => (x / 2) ^ (2 * k) / ((Nat.factorial k : ℝ)) ^ 2

/-- `np.kaiser(m, beta)`. -/
noncomputable def npKaiser (m : Nat) (beta : ℝ) : List ℝ :=
  if m = 1 then [1]
  else (List.range m).map fun (j : Nat) =>
    besselI0 (beta * Real.sqrt (1 - (2 * (j : ℝ) / ((m : ℝ) - 1) - 1) ^ 2)) /
      besselI0 beta

/-! ## SpectrumProcessor (dsp/spectrum_processor.py) -/

/-- `SpectrumProcessor._create_window`: dispatch on the window-type string,
any unknown type yielding the rectangular (all-ones) window. -/
noncomputable def createWindow (windowType : String) (fftSize : Nat) : List ℝ :=
  if windowType = "hann" then npHanning fftSize
  else if windowType = "hamming" then npHamming fftSize
  else if windowType = "blackman" then npBlackman fftSize
  else if windowType = "kaiser" then npKaiser fftSize 8.6
  else List.replicate fftSize 1

/-- `SpectrumProcessor._update_frequency_array`:
`fftshift(fftfreq(n, 1/sr)) + center_frequency`. -/
noncomputable def frequencyArray (fftSize : Nat) (sampleRate centerFrequency : ℝ) :
    List ℝ :=
  (npFftshift (npFftfreq fftSize sampleRate)).map (· + centerFrequency)

/-- The mutable fields of a `SpectrumProcessor` instance.  The pyfftw fields
are a drop-in performance substitute for `np.fft.fft` and are not modelled;
`smoothing_factor`, `enable_smoothing` and `overlap` are set in `__init__`
and never reassigned. -/
structure SpectrumState where
  fftSize : Nat
  sampleRate : ℝ
  overlap : ℝ
  windowType : String
  centerFrequency : ℝ
  window : List ℝ
  frequencies : List ℝ
  overlapSamples : Nat
  enableSmoothing : Bool
  smoothingFactor : ℝ
  previousSpectrum : Option (List ℝ)

/-- `SpectrumProcessor.__init__` (default center frequency 100 MHz;
`int(fft_size * overlap)` truncates, i.e. floors for the non-negative values
in range). -/
noncomputable def SpectrumProcessor.init (fftSize : Nat) (sampleRate overlap : ℝ)
    (windowType : String) : SpectrumState :=
  { fftSize := fftSize
    sampleRate := sampleRate
    overlap := overlap
    windowType := windowType
    centerFrequency := 100e6
    window := createWindow windowType fftSize
    frequencies := frequencyArray fftSize sampleRate 100e6
    overlapSamples := Int.toNat ⌊(fftSize : ℝ) * overlap⌋
    enableSmoothing := true
    smoothingFactor := 0.3
    previousSpectrum := none }

open scoped Classical in
/-- `SpectrumProcessor.update_config`: sequentially apply the provided fields,
regenerating the window and overlap buffer on an FFT-size change and the
frequency axis when anything changed.  Note: `previous_spectrum` is not
touched. -/
noncomputable def updateConfig (s : SpectrumState) (sampleRateOpt : Option ℝ)
    (centerFrequencyOpt : Option ℝ) (fftSizeOpt : Option Nat) : SpectrumState :=
  let p1 : SpectrumState × Bool :=
    match sampleRateOpt with
    | some sr => if sr = s.sampleRate then (s, false) else ({ s with sampleRate := sr }, true)
    | none => (s, false)
  let p2 : SpectrumState × Bool :=
    match centerFrequencyOpt with
    | some cf =>
        if cf = p1.1.centerFrequency then p1
        else ({ p1.1 with centerFrequency := cf }, true)
    | none => p1
  let p3 : SpectrumState × Bool :=
    match fftSizeOpt with
    | some n =>
        if n = p2.1.fftSize then p2
        else
          ({ p2.1 with
              fftSize := n
              window := createWindow p2.1.windowType n
              overlapSamples := Int.toNat ⌊(n : ℝ) * p2.1.overlap⌋ }, true)
    | none => p2
  if p3.2 then
    { p3.1 with
        frequencies := frequencyArray p3.1.fftSize p3.1.sampleRate p3.1.centerFrequency }
  else p3.1

/-- `10 * log10(max(power, 1e-10))`: dB conversion with the finite floor. -/
noncomputable def powerToDb (p : ℝ) : ℝ :=
  10 * Real.logb 10 (max p 1e-10)

/-- The smoothing step of `process_samples`:
`0.3 * new + 0.7 * previous` when enabled and a previous spectrum exists
(numpy raises on a length mismatch, modelled as `none`). -/
noncomputable def smoothStep (s : SpectrumState) (db : List ℝ) : Option (List ℝ) :=
  if s.enableSmoothing then
    match s.previousSpectrum with
    | some prev =>
        npBroadcast
          (fun n p => s.smoothingFactor * n + (1 - s.smoothingFactor) * p) db prev
    | none => some db
  else some db

/-- Tail of both processing paths: smooth, store the (possibly smoothed)
spectrum as the new previous, and return `(frequencies, spectrum_db)`.  A
smoothing failure is caught by the surrounding except, which returns empty
arrays before `previous_spectrum` is reassigned. -/
noncomputable def finishSpectrum (s : SpectrumState) (db : List ℝ) :
    SpectrumState × List ℝ × List ℝ :=
  match smoothStep s db with
  | some sm => ({ s with previousSpectrum := some sm }, (s.frequencies, sm))
  | none => (s, ([], []))

/-- The exact-size path of `process_samples` (window, FFT, fftshift, power,
dB, then smoothing). -/
noncomputable def processExact (s : SpectrumState) (samples : List ℂ) :
    SpectrumState × List ℝ × List ℝ :=
  match npBroadcast (fun (c : ℂ) (w : ℝ) => c * (w : ℂ)) samples s.window with
  | none => (s, ([], []))
  | some windowed =>
      let db := (npFftshift (npFft windowed)).map fun z =>
        powerToDb (Complex.abs z ^ 2)
      finishSpectrum s db

/-- The frame loop of `_process_long_sequence`: starting at `startIdx`, up to
`rem` further frames, each windowed and its unshifted power accumulated; the
loop breaks when a frame would run past the end.  `none` models a numpy
shape error caught by the except handler. -/
noncomputable def accumFrames (s : SpectrumState) (samples : List ℂ) (hop : Nat) :
    Nat → Nat → List ℝ → Nat → Option (List ℝ × Nat)
  | 0, _, acc, count => some (acc, count)
  | rem + 1, startIdx, acc, count =>
      if samples.length < startIdx + s.fftSize then some (acc, count)
      else
        match npBroadcast (fun (c : ℂ) (w : ℝ) => c * (w : ℂ))
            ((samples.drop startIdx).take s.fftSize) s.window with
        | none => none
        | some windowed =>
            match npBroadcast (· + ·) acc
                ((npFft windowed).map fun z => Complex.abs z ^ 2) with
            | none => none
            | some acc2 => accumFrames s samples hop rem (startIdx + hop) acc2 (count + 1)

/-- `SpectrumProcessor._process_long_sequence`: 50%-overlapping frames, power
averaged in the linear domain across frames, shifted, converted to dB once,
then smoothed.  A zero hop raises `ZeroDivisionError` in Python, caught by
the except handler (empty return); the `num_frames <= 0` fallback re-enters
`process_samples` with a zero-padded buffer (unreachable for the
longer-than-FFT inputs this function is called on, and a numpy error if the
input is longer than the FFT size, since the padded buffer cannot hold it). -/
noncomputable def processLong (s : SpectrumState) (samples : List ℂ) :
    SpectrumState × List ℝ × List ℝ :=
  let hop := s.fftSize - s.overlapSamples
  if hop = 0 then (s, ([], []))
  else
    let numFrames := (samples.length - s.overlapSamples) / hop
    if numFrames = 0 then
      if s.fftSize < samples.length then (s, ([], []))
      else processExact s (samples ++ List.replicate (s.fftSize - samples.length) 0)
    else
      match accumFrames s samples hop numFrames 0 (List.replicate s.fftSize 0) 0 with
      | none => (s, ([], []))
      | some (acc, count) =>
          if count = 0 then (s, ([], []))
          else
            let db := (npFftshift (acc.map (· / (count : ℝ)))).map powerToDb
            finishSpectrum s db

/-- `SpectrumProcessor.process_samples`: zero-pad short chunks on the right,
hand longer-than-FFT chunks to the overlap path, process exact-size chunks
as a single frame.  Returns the updated state with
`(frequencies, spectrum_db)`. -/
noncomputable def processSamples (s : SpectrumState) (samples : List ℂ) :
    SpectrumState × List ℝ × List ℝ :=
  if samples.length < s.fftSize then
    processExact s (samples ++ List.replicate (s.fftSize - samples.length) 0)
  else if s.fftSize < samples.length then processLong s samples
  else processExact s samples

/-- The unshifted periodogram of the frame starting at `startIdx`:
`abs(fft(frame * window))**2`. -/
noncomputable def framePower (s : SpectrumState) (samples : List ℂ) (startIdx : Nat) :
    List ℝ :=
  (npFft (List.zipWith (fun (c : ℂ) (w : ℝ) => c * (w : ℂ))
    ((samples.drop startIdx).take s.fftSize) s.window)).map fun z => Complex.abs z ^ 2

/-- The raw (unsmoothed) spectrum of a single exact-size frame:
`10*log10(max(abs(fftshift(fft(samples*window)))**2, 1e-10))`. -/
noncomputable def rawSpectrumDb (s : SpectrumState) (samples : List ℂ) : List ℝ :=
  (npFftshift (npFft (List.zipWith (fun (c : ℂ) (w : ℝ) => c * (w : ℂ))
    samples s.window))).map fun z => powerToDb (Complex.abs z ^ 2)

/-- Consistency of a `SpectrumProcessor` state: the cached window, frequency
axis and overlap count agree with the scalar configuration (as guaranteed by
`__init__` and `update_config`), any stored previous spectrum has the
current FFT length and respects the dB floor, and the smoothing factor lies
in the unit interval. -/
def ValidState (s : SpectrumState) : Prop :=
  s.window.length = s.fftSize ∧
  s.frequencies = frequencyArray s.fftSize s.sampleRate s.centerFrequency ∧
  s.overlapSamples = Int.toNat ⌊(s.fftSize : ℝ) * s.overlap⌋ ∧
  (∀ p ∈ s.previousSpectrum, p.length = s.fftSize ∧ ∀ v ∈ p, powerToDb 0 ≤ v) ∧
  0 ≤ s.smoothingFactor ∧ s.smoothingFactor ≤ 1

/-! ## Demodulation-mode configuration (config.py and
`WebSDRControllerV2.set_demodulation`) -/

/-- One entry of the `DEMOD_MODES` table (the fields read by
`set_demodulation`). -/
structure ModeConfig where
  bandwidthDefault : Int
  bandwidthMin : Int
  bandwidthMax : Int
  audioFilter : Bool

/-- The `DEMOD_MODES` dictionary from config.py. -/
def DEMOD_MODES (mode : String) : Option ModeConfig :=
  if mode = "AM" then some ⟨6000, 2000, 15000, true⟩
  else if mode = "FM" then some ⟨15000, 8000, 200000, true⟩
  else if mode = "USB" then some ⟨2700, 1500, 4000, true⟩
  else if mode = "LSB" then some ⟨2700, 1500, 4000, true⟩
  else if mode = "CW" then some ⟨500, 100, 1000, true⟩
  else if mode = "SPECTRUM" then some ⟨2400000, 10000, 2400000, false⟩
  else none

/-- The controller state mutated by `set_demodulation`: the `demod_config`
dict and the demodulator plugin's enabled flag. -/
structure DemodConfigState where
  mode : String
  bandwidth : Int
  demodPluginEnabled : Bool

/-- `WebSDRControllerV2.set_demodulation`: an unknown mode or an
out-of-range bandwidth raises `ValueError` before anything is assigned, so
the state is returned unchanged next to the error; otherwise the mode and
bandwidth are stored, the demodulator plugin enabled exactly when the mode
is not SPECTRUM, and the `{mode, bandwidth, audio_enabled}` reply
returned. -/
def setDemodulation (st : DemodConfigState) (mode : String)
    (bandwidthOpt : Option Int) : DemodConfigState × Except String (String × Int × Bool) :=
  match DEMOD_MODES mode with
  | none => (st, .error "Invalid demodulation mode")
  | some mc =>
      match bandwidthOpt with
      | none =>
          ({ mode := mode, bandwidth := mc.bandwidthDefault,
             demodPluginEnabled := mode != "SPECTRUM" },
            .ok (mode, mc.bandwidthDefault, mode != "SPECTRUM"))
      | some bw =>
          if mc.bandwidthMin ≤ bw ∧ bw ≤ mc.bandwidthMax then
            ({ mode := mode, bandwidth := bw,
               demodPluginEnabled := mode != "SPECTRUM" },
              .ok (mode, bw, mode != "SPECTRUM"))
          else (st, .error "Bandwidth outside range")

/-! ## AudioDemodulators (dsp/demodulators.py)

The scipy filter/resampling routines are external collaborators; they are
modelled as the fields of `DSPLib` (a designed filter is identified by the
parameters `_apply_audio_filter` passes to `scipy.signal.butter`).  Theorems
about demodulator output take the routines' documented contracts (length and
zero preservation) as hypotheses.  The filter-coefficient cache of
`_apply_audio_filter` memoises a pure design and is semantically
transparent, so it is not modelled.  The final `astype(np.float32)` of each
demodulator is the identity in this real-number embedding. -/

/-- A filter design produced inside `_apply_audio_filter` /
`_apply_deemphasis`: the `scipy.signal.butter` order and normalised
cutoff(s). -/
inductive FilterKind
  | lowpass (order : Nat) (wn : ℝ)
  | bandpass (order : Nat) (low high : ℝ)

/-- The external scipy routines used by the demodulators:
`sosfilt` applied to a butter design, the moving-average `filtfilt` used by
the AGC, the first-order butter `filtfilt` used by de-emphasis, and
`scipy.signal.resample` (given the requested output length). -/
structure DSPLib where
  sosfilt : FilterKind → List ℝ → List ℝ
  filtfiltMA : Nat → List ℝ → List ℝ
  filtfiltButter1 : ℝ → List ℝ → List ℝ
  resample : List ℝ → Nat → List ℝ

open scoped Classical in
/-- `AudioDemodulators._apply_audio_filter`: designs a lowpass or bandpass
butter filter from the given cutoffs and applies it; `low_cutoff or 300`
(respectively `high_cutoff or bandwidth`) is Python falsy-or; an invalid
normalised cutoff makes `scipy.signal.butter` raise, and the except handler
returns the input unfiltered. -/
noncomputable def applyAudioFilter (lib : DSPLib) (aud : List ℝ)
    (sampleRate bandwidth : ℝ) (filterType : String)
    (lowCutoff highCutoff : Option ℝ) : List ℝ :=
  let nyquist := sampleRate / 2
  if filterType = "lowpass" then
    let wn := min bandwidth (nyquist * 0.95) / nyquist
    if 0 < wn ∧ wn < 1 then lib.sosfilt (.lowpass 6 wn) aud else aud
  else if filterType = "bandpass" then
    let lowHz := match lowCutoff with
      | none => (300 : ℝ)
      | some c => if c = 0 then 300 else c
    let highHz := match highCutoff with
      | none => bandwidth
      | some c => if c = 0 then bandwidth else c
    let low := max lowHz 1 / nyquist
    let high := min highHz (nyquist * 0.95) / nyquist
    if low < high then
      if 0 < low ∧ high < 1 then lib.sosfilt (.bandpass 4 low high) aud else aud
    else if 0 < high ∧ high < 1 then lib.sosfilt (.lowpass 6 high) aud else aud
  else aud

open scoped Classical in
/-- `AudioDemodulators._apply_deemphasis` (75 microsecond time constant by
default); returns the input unchanged when the normalised cutoff is 1 or
more, or when the butter design would raise. -/
noncomputable def applyDeemphasis (lib : DSPLib) (aud : List ℝ)
    (sampleRate timeConstant : ℝ) : List ℝ :=
  let cutoffFreq := 1 / (2 * Real.pi * timeConstant)
  let nyquist := sampleRate / 2
  let cutoffNorm := cutoffFreq / nyquist
  if 1 ≤ cutoffNorm then aud
  else if 0 < cutoffNorm then lib.filtfiltButter1 cutoffNorm aud
  else aud

open scoped Classical in
/-- `AudioDemodulators._resample_audio`: skip when the rates agree,
otherwise resample to `int(len(audio) * output_rate / input_rate)` samples
(Python `int` truncates; the rates in use are positive, so this is a
floor). -/
noncomputable def resampleStep (lib : DSPLib) (aud : List ℝ)
    (inputRate outputRate : ℝ) : List ℝ :=
  if inputRate = outputRate then aud
  else lib.resample aud (Int.toNat ⌊(aud.length : ℝ) * (outputRate / inputRate)⌋)

/-- The output length of `_resample_audio` on an `n`-sample input. -/
noncomputable def resampledLength (n : Nat) (inputRate outputRate : ℝ) : Nat :=
  Int.toNat ⌊(n : ℝ) * (outputRate / inputRate)⌋

open scoped Classical in
/-- `AudioDemodulators._apply_agc`: envelope follower (moving-average
`filtfilt`, or the plain mean for very short signals), gain
`target/envelope` clipped to [0.1, 10] wherever the envelope exceeds 1e-10,
and a final unconditional clip of the output to [-1, 1].  The
`attack_time`/`release_time` parameters of the source are accepted but
never read by its body, so they are omitted here. -/
noncomputable def applyAgc (lib : DSPLib) (aud : List ℝ) (targetLevel : ℝ) :
    List ℝ :=
  if aud.length = 0 then aud
  else
    let windowSize := max 1 (Int.toNat ⌊(aud.length : ℝ) * 0.01⌋)
    let absAud := aud.map (fun x => |x|)
    let envelope :=
      if windowSize < absAud.length then lib.filtfiltMA windowSize absAud
      else absAud.map (fun _ => absAud.sum / (absAud.length : ℝ))
    let gained :=
      if ∃ e ∈ envelope, 1e-10 < e then
        List.zipWith (fun a e =>
          a * min (max (if 1e-10 < e then targetLevel / e else 1) 0.1) 10) aud envelope
      else aud
    gained.map (fun x => max (-1) (min 1 x))

open scoped Classical in
/-- `AudioDemodulators.am_demodulate`: envelope detection, DC removal by the
chunk mean, optional lowpass at the requested bandwidth, resampling, AGC. -/
noncomputable def amDemodulate (lib : DSPLib) (audioSampleRate : ℝ)
    (iqSamples : List ℂ) (sampleRate : ℝ) (bandwidth : Option ℝ) : List ℝ :=
  let amplitude := iqSamples.map Complex.abs
  let aud := amplitude.map (fun x => x - amplitude.sum / (amplitude.length : ℝ))
  let aud := match bandwidth with
    | some bw =>
        if bw < sampleRate / 2 then
          applyAudioFilter lib aud sampleRate bw "lowpass" none none
        else aud
    | none => aud
  let aud := resampleStep lib aud sampleRate audioSampleRate
  applyAgc lib aud 0.3

open scoped Classical in
/-- `AudioDemodulators.fm_demodulate`: quadrature discriminator (DC removal,
hard limiting with the 1e-10 magnitude floor, forward differences,
`I*dQ - Q*dI`), scaling by `sample_rate/(2*pi)` and the deviation,
pre-filter, de-emphasis for deviations of 50 kHz and more, final filter,
resampling, AGC.  On an empty chunk `I[0]` raises `IndexError` and the
except handler returns the empty all-zero buffer. -/
noncomputable def fmDemodulate (lib : DSPLib) (audioSampleRate : ℝ)
    (iqSamples : List ℂ) (sampleRate : ℝ) (bandwidth : Option ℝ)
    (deviation : ℝ) : List ℝ :=
  if iqSamples.length = 0 then []
  else
    let centered := iqSamples.map (fun z => z - iqSamples.sum / (iqSamples.length : ℂ))
    let magnitude := centered.map (fun z =>
      if Complex.abs z < 1e-10 then (1e-10 : ℝ) else Complex.abs z)
    let limited := List.zipWith (fun z (mg : ℝ) => z / (mg : ℂ)) centered magnitude
    let iPart := limited.map Complex.re
    let qPart := limited.map Complex.im
    let dI := List.zipWith (fun a b => a - b) iPart (iPart.headD 0 :: iPart)
    let dQ := List.zipWith (fun a b => a - b) qPart (qPart.headD 0 :: qPart)
    let disc := List.zipWith (fun p d => p.1 * d.2 - p.2 * d.1)
      (iPart.zip qPart) (dI.zip dQ)
    let aud := disc.map (fun x => x * sampleRate / (2 * Real.pi))
    let aud := aud.map (fun x => x / deviation)
    let aud := match bandwidth with
      | some bw => applyAudioFilter lib aud sampleRate
          (min (bw * 2) (sampleRate * 0.4)) "lowpass" none none
      | none => aud
    let aud := if 50000 ≤ deviation then applyDeemphasis lib aud sampleRate 75e-6
      else aud
    let aud := match bandwidth with
      | some bw => applyAudioFilter lib aud sampleRate bw "lowpass" none none
      | none => aud
    let aud := resampleStep lib aud sampleRate audioSampleRate
    applyAgc lib aud 0.4

/-- Python `str.lower()` on the mode string, modelled character by
character (exact for the ASCII mode names in use). -/
def pyLower (s : String) : String :=
  ⟨s.data.map Char.toLower⟩

/-- `AudioDemodulators.ssb_demodulate`: USB takes the real part directly,
LSB the real part of the complex conjugate; bandpass 300 Hz to the
bandwidth (default 2700 Hz); resample; AGC.  Any other mode raises
`ValueError`, which the except handler converts to all-zero audio of the
input length. -/
noncomputable def ssbDemodulate (lib : DSPLib) (audioSampleRate : ℝ)
    (iqSamples : List ℂ) (mode : String) (sampleRate : ℝ)
    (bandwidth : Option ℝ) : List ℝ :=
  let m := pyLower mode
  if m = "usb" ∨ m = "lsb" then
    let aud := if m = "usb" then iqSamples.map Complex.re
      else iqSamples.map (fun z => ((starRingEnd ℂ) z).re)
    let bw := bandwidth.getD 2700
    let aud := applyAudioFilter lib aud sampleRate bw "bandpass" (some 300) (some bw)
    let aud := resampleStep lib aud sampleRate audioSampleRate
    applyAgc lib aud 0.4
  else List.replicate iqSamples.length 0

/-- `AudioDemodulators.cw_demodulate`: mix with the complex BFO at the tone
frequency, take the real part, bandpass centred on the tone with half-width
`bandwidth/2`, resample, AGC. -/
noncomputable def cwDemodulate (lib : DSPLib) (audioSampleRate : ℝ)
    (iqSamples : List ℂ) (sampleRate : ℝ) (toneFrequency bandwidth : ℝ) : List ℝ :=
  let t := (List.range iqSamples.length).map (fun (n : Nat) => (n : ℝ) / sampleRate)
  let bfo := t.map (fun tv =>
    Complex.ofReal (Real.cos (2 * Real.pi * toneFrequency * tv)) +
      Complex.I * Complex.ofReal (Real.sin (2 * Real.pi * toneFrequency * tv)))
  let mixed := List.zipWith (fun z b => z * (starRingEnd ℂ) b) iqSamples bfo
  let aud := mixed.map Complex.re
  let aud := applyAudioFilter lib aud sampleRate bandwidth "bandpass"
    (some (toneFrequency - bandwidth / 2)) (some (toneFrequency + bandwidth / 2))
  let aud := resampleStep lib aud sampleRate audioSampleRate
  applyAgc lib aud 0.5

/-- A trivial instantiation of the external scipy collaborator, used to
exercise the contract-parameterised theorems at concrete inputs. -/
def idLib : DSPLib where
  sosfilt := fun _ x => x
  filtfiltMA := fun _ x => x
  filtfiltButter1 := fun _ x => x
  resample := fun _ n => List.replicate n 0

end H1SDR

/-! ############################################################
    Theorems
############################################################ -/

namespace H1SDR

/-! ### Bounded queue lemmas (claim C6) -/

theorem pushDropOldest_length_le {α : Type} (cap : Nat) (hcap : 0 < cap)
    (q : List α) (x : α) (hq : q.length ≤ cap) :
    (pushDropOldest cap q x).length ≤ cap := by
  unfold pushDropOldest
  split
  · simpa using by omega
  · simp only [List.length_append, List.length_drop, List.length_cons,
      List.length_nil]
    omega

theorem pushAll_eq_drop {α : Type} (cap : Nat) (hcap : 0 < cap) (xs : List α) :
    pushAll cap ([] : List α) xs = xs.drop (xs.length - cap) := by
  induction xs using List.reverseRecOn with
  | nil => simp [pushAll]
  | append_singleton ys y ih =>
      have hlen : (pushAll cap ([] : List α) ys).length = min ys.length cap := by
        rw [ih]; simp; omega
      rw [pushAll, List.foldl_append]
      rw [show ys.foldl (pushDropOldest cap) [] = pushAll cap [] ys from rfl, ih]
      simp only [List.foldl_cons, List.foldl_nil]
      unfold pushDropOldest
      rcases lt_or_le ys.length cap with h | h
      · rw [if_pos (by simp; omega)]
        rw [show ys.length - cap = 0 from by omega]
        rw [show (ys ++ [y]).length - cap = 0 from by simp; omega]
        simp
      · rw [if_neg (by simp; omega)]
        rw [List.drop_drop,
          List.drop_append_of_le_length (by simp; omega)]
        congr 2
        simp
        omega

/-- C6: the queue between acquisition and processing has capacity 10 with a
drop-oldest policy: a push onto a full queue evicts exactly the single oldest
chunk and inserts the new one (the producer never blocks, the push being a
total function), and after pushing more than 10 chunks without draining
exactly 10 chunks are retained, namely the most recently pushed 10 in arrival
order. -/
theorem c6_queue_drop_policy {α : Type} (xs : List α)
    (hN : queueCapacity < xs.length) :
    (∀ (q : List α) (x : α), q.length = queueCapacity →
        pushDropOldest queueCapacity q x = q.drop 1 ++ [x]) ∧
    pushAll queueCapacity ([] : List α) xs = xs.drop (xs.length - queueCapacity) ∧
    (pushAll queueCapacity ([] : List α) xs).length = queueCapacity := by
  refine ⟨fun q x hq => ?_, pushAll_eq_drop _ (by decide) xs, ?_⟩
  · unfold pushDropOldest
    rw [if_neg (by omega)]
  · rw [pushAll_eq_drop _ (by decide)]
    simp only [List.length_drop]
    omega

theorem c6_queue_drop_policy_witness :
    queueCapacity < (List.range 12).length ∧
    pushAll queueCapacity ([] : List ℕ) (List.range 12) =
      (List.range 12).drop ((List.range 12).length - queueCapacity) :=
  ⟨by decide, (c6_queue_drop_policy (List.range 12) (by decide)).2.1⟩

/-! ### Plugin supervisor lemmas (claim C1) -/

theorem safeExecute_success {α : Type} (p : Plugin α) (d : α) :
    (safeExecute p d).success = !callFails p d := by
  unfold safeExecute callFails
  cases p.process d <;> rfl

theorem safeExecute_name {α : Type} (p : Plugin α) (d : α) :
    (safeExecute p d).pluginName = p.name := by
  unfold safeExecute
  cases p.process d <;> rfl

theorem foldl_stats_failure {α : Type} (d : α) (plugins : List (Plugin α))
    (s : SupervisorState) (nm : String) :
    ((plugins.map (fun p => safeExecute p d)).foldl updateStats s).statsFailure nm =
      s.statsFailure nm +
        plugins.countP (fun p => p.name == nm && callFails p d) := by
  induction plugins generalizing s with
  | nil => simp
  | cons p ps ih =>
      simp only [List.map_cons, List.foldl_cons, ih, List.countP_cons]
      have hup : (updateStats s (safeExecute p d)).statsFailure nm =
          s.statsFailure nm + (if p.name == nm && callFails p d then 1 else 0) := by
        unfold updateStats
        rw [safeExecute_success]
        cases hcf : callFails p d with
        | false => simp
        | true =>
            simp only [Bool.not_true, Bool.false_eq_true, if_false, Bool.and_true]
            by_cases hnm : p.name = nm
            · simp [safeExecute_name, hnm]
            · simp [safeExecute_name, hnm, Ne.symm hnm]
      rw [hup]
      omega

theorem foldl_stats_success {α : Type} (d : α) (plugins : List (Plugin α))
    (s : SupervisorState) (nm : String) :
    ((plugins.map (fun p => safeExecute p d)).foldl updateStats s).statsSuccess nm =
      s.statsSuccess nm +
        plugins.countP (fun p => p.name == nm && !callFails p d) := by
  induction plugins generalizing s with
  | nil => simp
  | cons p ps ih =>
      simp only [List.map_cons, List.foldl_cons, ih, List.countP_cons]
      have hup : (updateStats s (safeExecute p d)).statsSuccess nm =
          s.statsSuccess nm + (if p.name == nm && !callFails p d then 1 else 0) := by
        unfold updateStats
        rw [safeExecute_success]
        cases hcf : callFails p d with
        | true => simp
        | false =>
            simp only [Bool.not_false, if_true, Bool.and_true]
            by_cases hnm : p.name = nm
            · simp [safeExecute_name, hnm]
            · simp [safeExecute_name, hnm, Ne.symm hnm]
      rw [hup]
      omega

/-- In a list of plugins with pairwise distinct names, a predicate that holds
at member `q` contributes exactly one match among plugins named `q.name`. -/
theorem countP_name_unique {α : Type} (plugins : List (Plugin α))
    (hnames : (plugins.map Plugin.name).Nodup) (q : Plugin α) (hq : q ∈ plugins)
    (b : Plugin α → Bool) (hb : b q = true) :
    plugins.countP (fun p => p.name == q.name && b p) = 1 := by
  induction plugins with
  | nil => simp at hq
  | cons p ps ih =>
      simp only [List.map_cons, List.nodup_cons] at hnames
      rcases List.mem_cons.mp hq with hpq | hq'
      · subst hpq
        rw [List.countP_cons]
        have hz : ps.countP (fun r => r.name == q.name && b r) = 0 := by
          rw [List.countP_eq_zero]
          intro r hr
          have : r.name ≠ q.name := by
            intro he
            exact hnames.1 (he ▸ List.mem_map_of_mem Plugin.name hr)
          simp [this]
        simp [hz, hb]
      · rw [List.countP_cons]
        have hhead : ¬(p.name == q.name && b p) = true := by
          intro hcontra
          have : p.name = q.name := by
            have := Bool.and_elim_left hcontra
            exact beq_iff_eq.mp this
          exact hnames.1 (this ▸ List.mem_map_of_mem Plugin.name hq')
        rw [ih hnames.2 hq']
        simp [hhead]

theorem run_stats_failure_of_always {α : Type} (plugins : List (Plugin α))
    (hnames : (plugins.map Plugin.name).Nodup) (f : Plugin α) (hmem : f ∈ plugins)
    (hf : ∀ x, callFails f x = true) (s : SupervisorState) (d : α) :
    ((runWithSupervision s plugins d).1).statsFailure f.name =
      s.statsFailure f.name + 1 := by
  unfold runWithSupervision
  simp only
  rw [foldl_stats_failure]
  rw [countP_name_unique plugins hnames f hmem _ (hf d)]

theorem run_stats_success_of_ok {α : Type} (plugins : List (Plugin α))
    (hnames : (plugins.map Plugin.name).Nodup) (q : Plugin α) (hmem : q ∈ plugins)
    (hq : ∀ x, callFails q x = false) (s : SupervisorState) (d : α) :
    ((runWithSupervision s plugins d).1).statsSuccess q.name =
      s.statsSuccess q.name + 1 := by
  unfold runWithSupervision
  simp only
  rw [foldl_stats_success]
  rw [countP_name_unique plugins hnames q hmem _ (by rw [hq d]; rfl)]

/-- C1: every plugin invocation is wrapped so that a raised exception is
caught at the point of invocation and becomes a failure result carrying the
plugin name; `run_with_supervision` always returns one result per plugin, in
plugin order, even when every plugin fails; and over repeated dispatch cycles
a plugin that raises on every call gains one failure per cycle while every
other (always-succeeding) plugin gains one success per cycle. -/
theorem c1_supervisor_error_isolation {α : Type} (plugins : List (Plugin α))
    (f : Plugin α) (hmem : f ∈ plugins)
    (hf : ∀ x, callFails f x = true)
    (hothers : ∀ p ∈ plugins, p.name ≠ f.name → ∀ x, callFails p x = false)
    (hnames : (plugins.map Plugin.name).Nodup) :
    (∀ (s : SupervisorState) (d : α),
        ((runWithSupervision s plugins d).2).map PluginResult.pluginName =
          plugins.map Plugin.name) ∧
    (∀ (p : Plugin α) (d : α), callFails p d = true →
        (safeExecute p d).success = false ∧ (safeExecute p d).pluginName = p.name) ∧
    (∀ (chunks : Nat → α) (n : Nat) (s : SupervisorState),
        (dispatchCycles plugins chunks n s).statsFailure f.name =
          s.statsFailure f.name + n ∧
        ∀ q ∈ plugins, q.name ≠ f.name →
          (dispatchCycles plugins chunks n s).statsSuccess q.name =
            s.statsSuccess q.name + n) := by
  refine ⟨?_, ?_, ?_⟩
  · intro s d
    unfold runWithSupervision
    simp only [List.map_map]
    exact List.map_congr_left fun p _ => safeExecute_name p d
  · intro p d hfail
    exact ⟨by rw [safeExecute_success, hfail]; rfl, safeExecute_name p d⟩
  · intro chunks n
    induction n generalizing chunks with
    | zero => intro s; simp [dispatchCycles]
    | succ n ih =>
        intro s
        unfold dispatchCycles
        constructor
        · rw [(ih _ _).1, run_stats_failure_of_always plugins hnames f hmem hf]
          omega
        · intro q hqmem hqname
          rw [(ih _ _).2 q hqmem hqname,
            run_stats_success_of_ok plugins hnames q hqmem
              (hothers q hqmem hqname)]
          omega

theorem c1_supervisor_error_isolation_witness :
    (let good : Plugin ℕ := ⟨"good", fun x => .ok x⟩
     let bad : Plugin ℕ := ⟨"bad", fun _ => .error "boom"⟩
     bad ∈ [good, bad] ∧
       (dispatchCycles [good, bad] (fun _ => 0) 3 SupervisorState.init).statsFailure
         "bad" = SupervisorState.init.statsFailure "bad" + 3) := by
  refine ⟨by simp, ?_⟩
  have h := c1_supervisor_error_isolation
    [⟨"good", fun x => .ok x⟩, (⟨"bad", fun _ => .error "boom"⟩ : Plugin ℕ)]
    ⟨"bad", fun _ => .error "boom"⟩ (by simp)
    (fun x => rfl)
    (by
      intro p hp hne x
      rcases List.mem_cons.mp hp with h1 | h1
      · subst h1; rfl
      · rcases List.mem_cons.mp h1 with h2 | h2
        · subst h2; simp at hne
        · simp at h2)
    (by simp)
  exact (h.2.2 (fun _ => 0) 3 SupervisorState.init).1

/-! ### NumPy model lemmas -/

theorem npFftshift_length {α : Type} (x : List α) :
    (npFftshift x).length = x.length := by
  unfold npFftshift
  simp only [List.length_append, List.length_drop, List.length_take]
  omega

theorem npFft_length (x : List ℂ) : (npFft x).length = x.length := by
  unfold npFft
  rw [List.length_map, List.length_range]

theorem npFftfreq_length (n : Nat) (sr : ℝ) : (npFftfreq n sr).length = n := by
  unfold npFftfreq
  rw [List.length_map, List.length_range]

theorem npHanning_length (m : Nat) (hm : m ≠ 1) : (npHanning m).length = m := by
  unfold npHanning
  rw [if_neg hm, List.length_map, List.length_range]

theorem npHamming_length (m : Nat) (hm : m ≠ 1) : (npHamming m).length = m := by
  unfold npHamming
  rw [if_neg hm, List.length_map, List.length_range]

theorem npBlackman_length (m : Nat) (hm : m ≠ 1) : (npBlackman m).length = m := by
  unfold npBlackman
  rw [if_neg hm, List.length_map, List.length_range]

theorem npKaiser_length (m : Nat) (beta : ℝ) (hm : m ≠ 1) :
    (npKaiser m beta).length = m := by
  unfold npKaiser
  rw [if_neg hm, List.length_map, List.length_range]

theorem createWindow_length (wt : String) (m : Nat) (hm : m ≠ 1) :
    (createWindow wt m).length = m := by
  unfold createWindow
  split_ifs
  · exact npHanning_length m hm
  · exact npHamming_length m hm
  · exact npBlackman_length m hm
  · exact npKaiser_length m _ hm
  · exact List.length_replicate m 1

theorem frequencyArray_length (n : Nat) (sr cf : ℝ) :
    (frequencyArray n sr cf).length = n := by
  unfold frequencyArray
  rw [List.length_map, npFftshift_length, npFftfreq_length]

theorem npBroadcast_of_length_eq {α β γ : Type} (f : α → β → γ) (a : List α)
    (b : List β) (h : a.length = b.length) :
    npBroadcast f a b = some (List.zipWith f a b) := by
  unfold npBroadcast
  rw [if_pos h]

theorem npBroadcast_eq_none {α β γ : Type} (f : α → β → γ) (a : List α)
    (b : List β) (h : a.length ≠ b.length) (ha : a.length ≠ 1) (hb : b.length ≠ 1) :
    npBroadcast f a b = none := by
  unfold npBroadcast
  rw [if_neg h]
  cases a with
  | nil =>
      cases b with
      | nil => exact absurd rfl h
      | cons y ys =>
          cases ys with
          | nil => exact absurd rfl hb
          | cons z zs => rfl
  | cons x xs =>
      cases xs with
      | nil => exact absurd rfl ha
      | cons w ws =>
          cases b with
          | nil => rfl
          | cons y ys =>
              cases ys with
              | nil => exact absurd rfl hb
              | cons z zs => rfl

theorem npFftshift_map {α β : Type} (f : α → β) (l : List α) :
    npFftshift (l.map f) = (npFftshift l).map f := by
  unfold npFftshift
  simp [List.map_drop, List.map_take]

theorem forall_mem_zipWith {α β γ : Type} {f : α → β → γ} {P : α → Prop}
    {Q : β → Prop} {R : γ → Prop} (hf : ∀ a b, P a → Q b → R (f a b)) :
    ∀ (xs : List α) (ys : List β), (∀ a ∈ xs, P a) → (∀ b ∈ ys, Q b) →
      ∀ v ∈ List.zipWith f xs ys, R v := by
  intro xs
  induction xs with
  | nil => intro ys _ _ v hv; simp at hv
  | cons x xs ih =>
      intro ys hx hy v hv
      cases ys with
      | nil => simp at hv
      | cons y ys =>
          rcases List.mem_cons.mp hv with h | h
          · exact h ▸ hf x y (hx x (by simp)) (hy y (by simp))
          · exact ih ys (fun a ha => hx a (by simp [ha])) (fun b hb => hy b (by simp [hb])) v h

theorem powerToDb_floor_le (p : ℝ) : powerToDb 0 ≤ powerToDb p := by
  unfold powerToDb
  have h0 : max (0 : ℝ) 1e-10 = 1e-10 := max_eq_right (by norm_num)
  rw [h0]
  have := Real.logb_le_logb_of_le (b := 10) (by norm_num)
    (show (0 : ℝ) < 1e-10 by norm_num) (le_max_right p 1e-10)
  linarith

/-! ### Spectrum processing lemmas -/

theorem smoothStep_spec (s : SpectrumState) (db : List ℝ)
    (hprev : ∀ p ∈ s.previousSpectrum, p.length = s.fftSize ∧ ∀ v ∈ p, powerToDb 0 ≤ v)
    (hsf0 : 0 ≤ s.smoothingFactor) (hsf1 : s.smoothingFactor ≤ 1)
    (hdb : db.length = s.fftSize) (hdbv : ∀ v ∈ db, powerToDb 0 ≤ v) :
    ∃ sm, smoothStep s db = some sm ∧ sm.length = s.fftSize ∧
      ∀ v ∈ sm, powerToDb 0 ≤ v := by
  cases he : s.enableSmoothing with
  | false => exact ⟨db, by simp [smoothStep, he], hdb, hdbv⟩
  | true =>
      cases hp : s.previousSpectrum with
      | none => exact ⟨db, by simp [smoothStep, he, hp], hdb, hdbv⟩
      | some prev =>
          obtain ⟨hplen, hpv⟩ := hprev prev (by rw [hp]; rfl)
          refine ⟨List.zipWith
              (fun n p => s.smoothingFactor * n + (1 - s.smoothingFactor) * p) db prev,
            ?_, ?_, ?_⟩
          · simp only [smoothStep, he, if_true, hp]
            exact npBroadcast_of_length_eq _ _ _ (by omega)
          · rw [List.length_zipWith]
            omega
          · refine forall_mem_zipWith (P := fun v => powerToDb 0 ≤ v)
              (Q := fun v => powerToDb 0 ≤ v) ?_ db prev hdbv hpv
            intro a b ha hb
            nlinarith [hsf0, hsf1, ha, hb]

theorem finishSpectrum_of_smooth (s : SpectrumState) (db sm : List ℝ)
    (hsm : smoothStep s db = some sm) :
    finishSpectrum s db = ({ s with previousSpectrum := some sm }, (s.frequencies, sm)) := by
  unfold finishSpectrum
  rw [hsm]

theorem processExact_spec (s : SpectrumState) (samples : List ℂ)
    (hw : s.window.length = s.fftSize) (hlen : samples.length = s.fftSize)
    (hprev : ∀ p ∈ s.previousSpectrum, p.length = s.fftSize ∧ ∀ v ∈ p, powerToDb 0 ≤ v)
    (hsf0 : 0 ≤ s.smoothingFactor) (hsf1 : s.smoothingFactor ≤ 1) :
    ∃ db, processExact s samples =
        ({ s with previousSpectrum := some db }, (s.frequencies, db)) ∧
      db.length = s.fftSize ∧ ∀ v ∈ db, powerToDb 0 ≤ v := by
  have hb1 : npBroadcast (fun (c : ℂ) (w : ℝ) => c * (w : ℂ)) samples s.window
      = some (List.zipWith (fun (c : ℂ) (w : ℝ) => c * (w : ℂ)) samples s.window) :=
    npBroadcast_of_length_eq _ _ _ (by omega)
  have hdb : ((npFftshift (npFft (List.zipWith (fun (c : ℂ) (w : ℝ) => c * (w : ℂ))
      samples s.window))).map fun z => powerToDb (Complex.abs z ^ 2)).length
      = s.fftSize := by
    rw [List.length_map, npFftshift_length, npFft_length, List.length_zipWith]
    omega
  have hdbv : ∀ v ∈ (npFftshift (npFft (List.zipWith (fun (c : ℂ) (w : ℝ) => c * (w : ℂ))
      samples s.window))).map fun z => powerToDb (Complex.abs z ^ 2),
      powerToDb 0 ≤ v := by
    intro v hv
    obtain ⟨z, _, hz⟩ := List.mem_map.mp hv
    exact hz ▸ powerToDb_floor_le _
  obtain ⟨sm, hsm, hsmlen, hsmv⟩ := smoothStep_spec s _ hprev hsf0 hsf1 hdb hdbv
  refine ⟨sm, ?_, hsmlen, hsmv⟩
  simp only [processExact, hb1]
  exact finishSpectrum_of_smooth s _ sm hsm

/-! ### The frequency axis -/

theorem npFftshift_fftfreq_even (m : Nat) (sr : ℝ) :
    npFftshift (npFftfreq (2 * m) sr) =
      (List.range (2 * m)).map fun (i : Nat) =>
        ((i : ℝ) - (m : ℝ)) * sr / ((2 * m : Nat) : ℝ) := by
  unfold npFftshift npFftfreq
  rw [List.length_map, List.length_range]
  rw [show (2 * m + 1) / 2 = m from by omega]
  rw [show 2 * m = m + m from by omega]
  rw [List.range_add, List.map_append, List.map_append]
  rw [List.drop_left' (by rw [List.length_map, List.length_range]),
    List.take_left' (by rw [List.length_map, List.length_range])]
  congr 1
  · rw [List.map_map]
    apply List.map_congr_left
    intro i hi
    have him : i < m := List.mem_range.mp hi
    simp only [Function.comp]
    rw [if_neg (by omega)]
    push_cast
    ring
  · rw [List.map_map]
    apply List.map_congr_left
    intro i hi
    have him : i < m := List.mem_range.mp hi
    simp only [Function.comp]
    rw [if_pos (by omega)]
    push_cast
    ring

theorem frequencyArray_even (m : Nat) (sr cf : ℝ) :
    frequencyArray (2 * m) sr cf =
      (List.range (2 * m)).map fun (i : Nat) =>
        cf + ((i : ℝ) - (m : ℝ)) * (sr / ((2 * m : Nat) : ℝ)) := by
  unfold frequencyArray
  rw [npFftshift_fftfreq_even, List.map_map]
  apply List.map_congr_left
  intro i _
  simp only [Function.comp]
  ring

/-! ### The overlap path -/

theorem framePower_length (s : SpectrumState) (samples : List ℂ) (j : Nat)
    (hw : s.window.length = s.fftSize) (hfit : j + s.fftSize ≤ samples.length) :
    (framePower s samples j).length = s.fftSize := by
  unfold framePower
  rw [List.length_map, npFft_length, List.length_zipWith, List.length_take,
    List.length_drop]
  omega

theorem foldl_zipWith_length (ps : List (List ℝ)) :
    ∀ acc : List ℝ, (∀ p ∈ ps, p.length = acc.length) →
      (ps.foldl (fun a q => List.zipWith (· + ·) a q) acc).length = acc.length := by
  induction ps with
  | nil => intro acc _; rfl
  | cons p ps ih =>
      intro acc h
      rw [List.foldl_cons]
      have hzl : (List.zipWith (· + ·) acc p).length = acc.length := by
        rw [List.length_zipWith]
        have := h p (by simp)
        omega
      rw [ih _ (fun q hq => by rw [hzl]; exact h q (by simp [hq]))]
      exact hzl

theorem accumFrames_spec (s : SpectrumState) (samples : List ℂ) (hop : Nat)
    (hw : s.window.length = s.fftSize) :
    ∀ (rem startIdx : Nat) (acc : List ℝ) (count : Nat),
      acc.length = s.fftSize →
      (∀ i < rem, startIdx + i * hop + s.fftSize ≤ samples.length) →
      accumFrames s samples hop rem startIdx acc count =
        some (((List.range rem).map fun (i : Nat) =>
            framePower s samples (startIdx + i * hop)).foldl
          (fun a q => List.zipWith (· + ·) a q) acc, count + rem) := by
  intro rem
  induction rem with
  | zero => intro startIdx acc count _ _; simp [accumFrames]
  | succ r ih =>
      intro startIdx acc count hacc hfit
      have hfit0 : startIdx + s.fftSize ≤ samples.length := by
        have := hfit 0 (by omega)
        omega
      have hframe : ((samples.drop startIdx).take s.fftSize).length = s.fftSize := by
        rw [List.length_take, List.length_drop]
        omega
      have hb1 : npBroadcast (fun (c : ℂ) (w : ℝ) => c * (w : ℂ))
          ((samples.drop startIdx).take s.fftSize) s.window =
          some (List.zipWith (fun (c : ℂ) (w : ℝ) => c * (w : ℂ))
            ((samples.drop startIdx).take s.fftSize) s.window) :=
        npBroadcast_of_length_eq _ _ _ (by omega)
      have hplen : (framePower s samples startIdx).length = s.fftSize :=
        framePower_length s samples startIdx hw hfit0
      have hb2 : npBroadcast (· + ·) acc (framePower s samples startIdx) =
          some (List.zipWith (· + ·) acc (framePower s samples startIdx)) :=
        npBroadcast_of_length_eq _ _ _ (by omega)
      rw [show accumFrames s samples hop (r + 1) startIdx acc count =
          (if samples.length < startIdx + s.fftSize then some (acc, count)
           else
            match npBroadcast (fun (c : ℂ) (w : ℝ) => c * (w : ℂ))
                ((samples.drop startIdx).take s.fftSize) s.window with
            | none => none
            | some windowed =>
                match npBroadcast (· + ·) acc
                    ((npFft windowed).map fun z => Complex.abs z ^ 2) with
                | none => none
                | some acc2 =>
                    accumFrames s samples hop r (startIdx + hop) acc2 (count + 1))
          from rfl]
      rw [if_neg (by omega), hb1]
      simp only
      rw [show ((npFft (List.zipWith (fun (c : ℂ) (w : ℝ) => c * (w : ℂ))
          ((samples.drop startIdx).take s.fftSize) s.window)).map
          fun z => Complex.abs z ^ 2) = framePower s samples startIdx from rfl]
      rw [hb2]
      simp only
      rw [ih (startIdx + hop) (List.zipWith (· + ·) acc (framePower s samples startIdx))
        (count + 1)
        (by rw [List.length_zipWith]; omega)
        (by
          intro i hi
          have := hfit (i + 1) (by omega)
          have harith : startIdx + (i + 1) * hop = startIdx + hop + i * hop := by
            rw [Nat.add_mul]
            omega
          omega)]
      congr 2
      · rw [List.range_succ_eq_map, List.map_cons, List.foldl_cons, List.map_map]
        rw [show startIdx + 0 * hop = startIdx from by omega]
        congr 1
        apply List.map_congr_left
        intro i _
        simp only [Function.comp]
        congr 1
        rw [Nat.succ_mul]
        omega
      · omega

theorem processLong_spec (s : SpectrumState) (samples : List ℂ) (m : Nat)
    (hm : 1 ≤ m) (hN : s.fftSize = 2 * m) (hos : s.overlapSamples = m)
    (hw : s.window.length = s.fftSize)
    (hprev : ∀ p ∈ s.previousSpectrum, p.length = s.fftSize ∧ ∀ v ∈ p, powerToDb 0 ≤ v)
    (hsf0 : 0 ≤ s.smoothingFactor) (hsf1 : s.smoothingFactor ≤ 1)
    (hgt : s.fftSize < samples.length) :
    ∃ db, processLong s samples =
        ({ s with previousSpectrum := some db }, (s.frequencies, db)) ∧
      db.length = s.fftSize ∧ ∀ v ∈ db, powerToDb 0 ≤ v := by
  have hhop : s.fftSize - s.overlapSamples = m := by omega
  have hnf1 : 1 ≤ (samples.length - s.overlapSamples) / (s.fftSize - s.overlapSamples) := by
    rw [hhop, hos]
    rw [Nat.le_div_iff_mul_le (by omega)]
    omega
  set nf := (samples.length - s.overlapSamples) / (s.fftSize - s.overlapSamples) with hnf
  have hfit : ∀ i < nf, 0 + i * m + s.fftSize ≤ samples.length := by
    intro i hi
    have h1 : (i + 1) * m ≤ nf * m := Nat.mul_le_mul_right m (by omega)
    have h2 : nf * m ≤ samples.length - s.overlapSamples := by
      rw [hnf, hhop]
      exact Nat.div_mul_le_self _ _
    rw [Nat.add_mul] at h1
    omega
  have haccum := accumFrames_spec s samples m hw nf 0 (List.replicate s.fftSize 0) 0
    (List.length_replicate _ _) hfit
  have hplist : ∀ p ∈ (List.range nf).map fun (i : Nat) =>
      framePower s samples (0 + i * m), p.length = (List.replicate s.fftSize (0:ℝ)).length := by
    intro p hp
    obtain ⟨i, hir, hieq⟩ := List.mem_map.mp hp
    rw [List.length_replicate, ← hieq]
    exact framePower_length s samples _ hw (hfit i (List.mem_range.mp hir))
  have hacclen : (((List.range nf).map fun (i : Nat) =>
      framePower s samples (0 + i * m)).foldl
        (fun a q => List.zipWith (· + ·) a q) (List.replicate s.fftSize 0)).length
      = s.fftSize := by
    rw [foldl_zipWith_length _ _ hplist, List.length_replicate]
  set accFinal := (((List.range nf).map fun (i : Nat) =>
    framePower s samples (0 + i * m)).foldl
      (fun a q => List.zipWith (· + ·) a q) (List.replicate s.fftSize 0)) with haccdef
  have hdb : ((npFftshift (accFinal.map (· / ((0 + nf : Nat) : ℝ)))).map powerToDb).length
      = s.fftSize := by
    rw [List.length_map, npFftshift_length, List.length_map]
    exact hacclen
  have hdbv : ∀ v ∈ (npFftshift (accFinal.map (· / ((0 + nf : Nat) : ℝ)))).map powerToDb,
      powerToDb 0 ≤ v := by
    intro v hv
    obtain ⟨z, _, hz⟩ := List.mem_map.mp hv
    exact hz ▸ powerToDb_floor_le _
  obtain ⟨sm, hsm, hsmlen, hsmv⟩ := smoothStep_spec s _ hprev hsf0 hsf1 hdb hdbv
  refine ⟨sm, ?_, hsmlen, hsmv⟩
  rw [show processLong s samples =
      (if s.fftSize - s.overlapSamples = 0 then (s, ([], []))
       else if (samples.length - s.overlapSamples) / (s.fftSize - s.overlapSamples) = 0
       then
         (if s.fftSize < samples.length then (s, ([], []))
          else processExact s (samples ++ List.replicate (s.fftSize - samples.length) 0))
       else
         match accumFrames s samples (s.fftSize - s.overlapSamples)
             ((samples.length - s.overlapSamples) / (s.fftSize - s.overlapSamples)) 0
             (List.replicate s.fftSize 0) 0 with
         | none => (s, ([], []))
         | some (acc, count) =>
             if count = 0 then (s, ([], []))
             else
               finishSpectrum s ((npFftshift (acc.map (· / (count : ℝ)))).map powerToDb))
      from rfl]
  rw [if_neg (show ¬(s.fftSize - s.overlapSamples = 0) from by omega)]
  rw [← hnf]
  rw [if_neg (show ¬(nf = 0) from by omega)]
  rw [hhop]
  rw [haccum]
  simp only
  rw [if_neg (show ¬(0 + nf = 0) from by omega)]
  exact finishSpectrum_of_smooth s _ sm hsm

theorem powerToDb_zero : powerToDb 0 = 10 * Real.logb 10 1e-10 := by
  unfold powerToDb
  rw [max_eq_right (by norm_num)]

/-- Master lemma: on any chunk, a consistent processor state with an even FFT
size and 50% overlap produces a spectrum of exactly `fft_size` bins, each at
least the dB floor, stores it as the new previous spectrum, and returns the
cached frequency axis. -/
theorem processSamples_spec (s : SpectrumState) (samples : List ℂ) (m : Nat)
    (hm : 1 ≤ m) (hN : s.fftSize = 2 * m) (hval : ValidState s)
    (hov : s.overlap = 1 / 2) :
    ∃ db, processSamples s samples =
        ({ s with previousSpectrum := some db }, (s.frequencies, db)) ∧
      db.length = s.fftSize ∧ ∀ v ∈ db, powerToDb 0 ≤ v := by
  obtain ⟨hw, hfreq, hovS, hprev, hsf0, hsf1⟩ := hval
  have hos : s.overlapSamples = m := by
    rw [hovS, hN, hov]
    rw [show ((2 * m : ℕ) : ℝ) * (1 / 2) = ((m : ℕ) : ℝ) by push_cast; ring]
    rw [Int.floor_natCast]
    simp
  rcases lt_trichotomy samples.length s.fftSize with hlt | heq | hgt
  · rw [show processSamples s samples =
        processExact s (samples ++ List.replicate (s.fftSize - samples.length) 0)
        from by unfold processSamples; rw [if_pos hlt]]
    exact processExact_spec s _ hw
      (by rw [List.length_append, List.length_replicate]; omega) hprev hsf0 hsf1
  · rw [show processSamples s samples = processExact s samples from by
        unfold processSamples; rw [if_neg (by omega), if_neg (by omega)]]
    exact processExact_spec s _ hw heq hprev hsf0 hsf1
  · rw [show processSamples s samples = processLong s samples from by
        unfold processSamples; rw [if_neg (by omega), if_pos hgt]]
    exact processLong_spec s samples m hm hN hos hw hprev hsf0 hsf1 hgt

/-- C2: for every valid configuration (power-of-two FFT size, positive sample
rate, consistent cached state, the fixed 50% overlap) and every input chunk,
`process_samples` returns frequency and power arrays of length exactly
`fft_size`; bin `i` of the frequency axis equals
`center_frequency + (i - N/2) * (sample_rate / N)`, so the axis is strictly
increasing; and every power value is at least the `10*log10(1e-10)` floor
(in particular finite). -/
theorem c2_spectrum_shape_invariant (s : SpectrumState) (samples : List ℂ)
    (k : Nat) (hval : ValidState s) (hN : s.fftSize = 2 ^ k) (hk : 1 ≤ k)
    (hsr : 0 < s.sampleRate) (hov : s.overlap = 1 / 2) :
    ((processSamples s samples).2.1).length = s.fftSize ∧
    ((processSamples s samples).2.2).length = s.fftSize ∧
    (∀ i : Nat, i < s.fftSize →
      ((processSamples s samples).2.1).getD i 0 =
        s.centerFrequency +
          ((i : ℝ) - (s.fftSize : ℝ) / 2) * (s.sampleRate / (s.fftSize : ℝ))) ∧
    (∀ i j : Nat, i < j → j < s.fftSize →
      ((processSamples s samples).2.1).getD i 0 <
        ((processSamples s samples).2.1).getD j 0) ∧
    (∀ v ∈ (processSamples s samples).2.2, 10 * Real.logb 10 1e-10 ≤ v) := by
  obtain ⟨k', rfl⟩ : ∃ k', k = k' + 1 := ⟨k - 1, by omega⟩
  have hN2 : s.fftSize = 2 * 2 ^ k' := by rw [hN, pow_succ]; ring
  have hm1 : 1 ≤ 2 ^ k' := Nat.one_le_two_pow
  obtain ⟨db, heq, hlen, hbound⟩ := processSamples_spec s samples (2 ^ k') hm1 hN2 hval hov
  have hfreqs : (processSamples s samples).2.1 = s.frequencies := by rw [heq]
  have hdb2 : (processSamples s samples).2.2 = db := by rw [heq]
  have hfa : s.frequencies = (List.range (2 * 2 ^ k')).map fun (i : Nat) =>
      s.centerFrequency + ((i : ℝ) - ((2 ^ k' : ℕ) : ℝ)) *
        (s.sampleRate / ((2 * 2 ^ k' : ℕ) : ℝ)) := by
    rw [hval.2.1, hN2]
    exact frequencyArray_even _ _ _
  have hNpos : (0 : ℝ) < (s.fftSize : ℝ) := by
    rw [hN2]
    positivity
  have hformula : ∀ i : Nat, i < s.fftSize →
      ((processSamples s samples).2.1).getD i 0 =
        s.centerFrequency +
          ((i : ℝ) - (s.fftSize : ℝ) / 2) * (s.sampleRate / (s.fftSize : ℝ)) := by
    intro i hi
    have hi' : i < 2 * 2 ^ k' := by omega
    rw [hfreqs, hfa]
    rw [List.getD_eq_getElem _ _ (by rw [List.length_map, List.length_range]; exact hi')]
    rw [List.getElem_map, List.getElem_range]
    rw [hN2]
    push_cast
    ring
  refine ⟨?_, ?_, hformula, ?_, ?_⟩
  · rw [hfreqs, hval.2.1, frequencyArray_length]
  · rw [hdb2]
    exact hlen
  · intro i j hij hj
    rw [hformula i (by omega), hformula j hj]
    have hc : 0 < s.sampleRate / (s.fftSize : ℝ) := div_pos hsr hNpos
    have hij' : (i : ℝ) < (j : ℝ) := by exact_mod_cast hij
    have := mul_lt_mul_of_pos_right
      (show (i : ℝ) - (s.fftSize : ℝ) / 2 < (j : ℝ) - (s.fftSize : ℝ) / 2 by linarith) hc
    linarith
  · intro v hv
    rw [hdb2] at hv
    have := hbound v hv
    rw [powerToDb_zero] at this
    exact this

theorem c2_spectrum_shape_invariant_witness :
    ValidState (SpectrumProcessor.init 4 1 (1 / 2) "hann") ∧
    ((processSamples (SpectrumProcessor.init 4 1 (1 / 2) "hann") []).2.1).length =
      (SpectrumProcessor.init 4 1 (1 / 2) "hann").fftSize := by
  have hval : ValidState (SpectrumProcessor.init 4 1 (1 / 2) "hann") := by
    refine ⟨?_, rfl, rfl, ?_, ?_, ?_⟩
    · show (createWindow "hann" 4).length = 4
      exact createWindow_length "hann" 4 (by omega)
    · intro p hp
      simp [SpectrumProcessor.init] at hp
    · norm_num [SpectrumProcessor.init]
    · norm_num [SpectrumProcessor.init]
  refine ⟨hval, ?_⟩
  exact (c2_spectrum_shape_invariant (SpectrumProcessor.init 4 1 (1 / 2) "hann") [] 2
    hval (by norm_num [SpectrumProcessor.init]) (by omega)
    (by norm_num [SpectrumProcessor.init]) rfl).1

/-! ### Smoothing behaviour (claim C3) -/

theorem rawSpectrumDb_length (s : SpectrumState) (samples : List ℂ)
    (hw : s.window.length = s.fftSize) (hlen : samples.length = s.fftSize) :
    (rawSpectrumDb s samples).length = s.fftSize := by
  unfold rawSpectrumDb
  rw [List.length_map, npFftshift_length, npFft_length, List.length_zipWith]
  omega

theorem processSamples_eq_exact (s : SpectrumState) (samples : List ℂ)
    (hlen : samples.length = s.fftSize) :
    processSamples s samples = processExact s samples := by
  unfold processSamples
  rw [if_neg (by omega), if_neg (by omega)]

theorem processExact_raw (s : SpectrumState) (samples : List ℂ)
    (hw : s.window.length = s.fftSize) (hlen : samples.length = s.fftSize) :
    processExact s samples = finishSpectrum s (rawSpectrumDb s samples) := by
  unfold processExact
  rw [npBroadcast_of_length_eq _ _ _ (by omega)]
  rfl

theorem smoothStep_some_prev (s : SpectrumState) (db prev : List ℝ)
    (hprev : s.previousSpectrum = some prev) (hen : s.enableSmoothing = true) :
    smoothStep s db = npBroadcast
      (fun n p => s.smoothingFactor * n + (1 - s.smoothingFactor) * p) db prev := by
  unfold smoothStep
  rw [hen, hprev]
  rfl

theorem smoothStep_none_prev (s : SpectrumState) (db : List ℝ)
    (hprev : s.previousSpectrum = none) : smoothStep s db = some db := by
  unfold smoothStep
  rw [hprev]
  cases s.enableSmoothing <;> rfl

theorem finishSpectrum_of_fail (s : SpectrumState) (db : List ℝ)
    (h : smoothStep s db = none) : finishSpectrum s db = (s, ([], [])) := by
  unfold finishSpectrum
  rw [h]

theorem processSamples_first_call (s : SpectrumState) (samples : List ℂ)
    (hw : s.window.length = s.fftSize) (hlen : samples.length = s.fftSize)
    (hprev : s.previousSpectrum = none) :
    processSamples s samples =
      ({ s with previousSpectrum := some (rawSpectrumDb s samples) },
        (s.frequencies, rawSpectrumDb s samples)) := by
  rw [processSamples_eq_exact s samples hlen, processExact_raw s samples hw hlen]
  exact finishSpectrum_of_smooth s _ _ (smoothStep_none_prev s _ hprev)

theorem processSamples_smoothing (s : SpectrumState) (samples : List ℂ)
    (prev : List ℝ) (hw : s.window.length = s.fftSize)
    (hlen : samples.length = s.fftSize) (hprev : s.previousSpectrum = some prev)
    (hplen : prev.length = s.fftSize) (hen : s.enableSmoothing = true) :
    processSamples s samples =
      ({ s with previousSpectrum := some (List.zipWith
          (fun a b => s.smoothingFactor * a + (1 - s.smoothingFactor) * b)
          (rawSpectrumDb s samples) prev) },
        (s.frequencies, List.zipWith
          (fun a b => s.smoothingFactor * a + (1 - s.smoothingFactor) * b)
          (rawSpectrumDb s samples) prev)) := by
  rw [processSamples_eq_exact s samples hlen, processExact_raw s samples hw hlen]
  refine finishSpectrum_of_smooth s _ _ ?_
  rw [smoothStep_some_prev s _ prev hprev hen]
  exact npBroadcast_of_length_eq _ _ _
    (by rw [rawSpectrumDb_length s samples hw hlen]; omega)

theorem processSamples_smoothing_mismatch (s : SpectrumState) (samples : List ℂ)
    (prev : List ℝ) (hw : s.window.length = s.fftSize)
    (hlen : samples.length = s.fftSize) (hprev : s.previousSpectrum = some prev)
    (hplen : prev.length ≠ s.fftSize) (hp1 : prev.length ≠ 1)
    (hN1 : s.fftSize ≠ 1) (hen : s.enableSmoothing = true) :
    processSamples s samples = (s, ([], [])) := by
  rw [processSamples_eq_exact s samples hlen, processExact_raw s samples hw hlen]
  refine finishSpectrum_of_fail s _ ?_
  rw [smoothStep_some_prev s _ prev hprev hen]
  exact npBroadcast_eq_none _ _ _
    (by rw [rawSpectrumDb_length s samples hw hlen]; omega)
    (by rw [rawSpectrumDb_length s samples hw hlen]; exact hN1) hp1

theorem updateConfig_previousSpectrum (s : SpectrumState)
    (srOpt cfOpt : Option ℝ) (nOpt : Option Nat) :
    (updateConfig s srOpt cfOpt nOpt).previousSpectrum = s.previousSpectrum := by
  unfold updateConfig
  cases srOpt <;> cases cfOpt <;> cases nOpt <;> simp only <;> split_ifs <;> rfl

theorem updateConfig_fft_only (s : SpectrumState) (n : Nat) (hne : ¬n = s.fftSize) :
    updateConfig s none none (some n) =
      { s with
        fftSize := n
        window := createWindow s.windowType n
        overlapSamples := Int.toNat ⌊(n : ℝ) * s.overlap⌋
        frequencies := frequencyArray n s.sampleRate s.centerFrequency } := by
  unfold updateConfig
  simp only
  rw [if_neg hne]
  rfl

/-- C3 (amended): smoothing computes `0.3*new + 0.7*previous` against the
stored previous spectrum, and is skipped exactly when no previous spectrum
exists (the raw spectrum is then stored); `update_config` does not clear the
stored previous spectrum, so after an FFT-size change the first
`process_samples` call at the new size attempts smoothing against the stale
old-size spectrum, fails on the length mismatch, and returns empty arrays
with the state unchanged — not the raw spectrum of the new size. -/
theorem c3_smoothing_and_reset (s : SpectrumState) (samples : List ℂ)
    (hw : s.window.length = s.fftSize) (hlen : samples.length = s.fftSize)
    (hsf : s.smoothingFactor = 0.3) (hen : s.enableSmoothing = true) :
    (∀ prev : List ℝ, s.previousSpectrum = some prev → prev.length = s.fftSize →
      processSamples s samples =
        ({ s with previousSpectrum := some (List.zipWith
            (fun a b => 0.3 * a + 0.7 * b) (rawSpectrumDb s samples) prev) },
          (s.frequencies, List.zipWith (fun a b => 0.3 * a + 0.7 * b)
            (rawSpectrumDb s samples) prev))) ∧
    (s.previousSpectrum = none →
      processSamples s samples =
        ({ s with previousSpectrum := some (rawSpectrumDb s samples) },
          (s.frequencies, rawSpectrumDb s samples))) ∧
    (∀ (srOpt cfOpt : Option ℝ) (nOpt : Option Nat),
      (updateConfig s srOpt cfOpt nOpt).previousSpectrum = s.previousSpectrum) ∧
    (∀ prev : List ℝ, s.previousSpectrum = some prev → prev.length ≠ s.fftSize →
      prev.length ≠ 1 → s.fftSize ≠ 1 →
      processSamples s samples = (s, ([], []))) := by
  refine ⟨?_, ?_, ?_, ?_⟩
  · intro prev hprev hplen
    rw [processSamples_smoothing s samples prev hw hlen hprev hplen hen]
    rw [hsf]
    norm_num
  · intro hprev
    exact processSamples_first_call s samples hw hlen hprev
  · intro srOpt cfOpt nOpt
    exact updateConfig_previousSpectrum s srOpt cfOpt nOpt
  · intro prev hprev hplen hp1 hN1
    exact processSamples_smoothing_mismatch s samples prev hw hlen hprev hplen hp1 hN1 hen

theorem c3_smoothing_and_reset_witness :
    (SpectrumProcessor.init 4 1 (1 / 2) "hann").window.length =
        (SpectrumProcessor.init 4 1 (1 / 2) "hann").fftSize ∧
    (processSamples (SpectrumProcessor.init 4 1 (1 / 2) "hann")
        (List.replicate 4 1)).1.previousSpectrum =
      some (rawSpectrumDb (SpectrumProcessor.init 4 1 (1 / 2) "hann")
        (List.replicate 4 1)) := by
  have hw : (SpectrumProcessor.init 4 1 (1 / 2) "hann").window.length =
      (SpectrumProcessor.init 4 1 (1 / 2) "hann").fftSize := by
    show (createWindow "hann" 4).length = 4
    exact createWindow_length "hann" 4 (by omega)
  refine ⟨hw, ?_⟩
  rw [((c3_smoothing_and_reset (SpectrumProcessor.init 4 1 (1 / 2) "hann")
      (List.replicate 4 1) hw (by simp [SpectrumProcessor.init]) rfl rfl).2.1) rfl]

/-- C3 counterexample: from a fresh 4-bin processor, process one chunk, then
change the FFT size to 8 via `update_config`; the first `process_samples`
call after the change returns an empty spectrum, not the raw unsmoothed
8-bin spectrum the claim promises. -/
theorem c3_counterexample :
    ((processSamples
        (updateConfig
          (processSamples (SpectrumProcessor.init 4 1 (1 / 2) "hann")
            (List.replicate 4 1)).1
          none none (some 8))
        (List.replicate 8 1)).2.2 = ([] : List ℝ)) ∧
    (processSamples
        (updateConfig
          (processSamples (SpectrumProcessor.init 4 1 (1 / 2) "hann")
            (List.replicate 4 1)).1
          none none (some 8))
        (List.replicate 8 1)).2.2 ≠
      rawSpectrumDb
        (updateConfig
          (processSamples (SpectrumProcessor.init 4 1 (1 / 2) "hann")
            (List.replicate 4 1)).1
          none none (some 8))
        (List.replicate 8 1) := by
  have hw0 : (SpectrumProcessor.init 4 1 (1 / 2) "hann").window.length =
      (SpectrumProcessor.init 4 1 (1 / 2) "hann").fftSize := by
    show (createWindow "hann" 4).length = 4
    exact createWindow_length "hann" 4 (by omega)
  have hs1 : (processSamples (SpectrumProcessor.init 4 1 (1 / 2) "hann")
      (List.replicate 4 1)).1 =
      { SpectrumProcessor.init 4 1 (1 / 2) "hann" with
        previousSpectrum := some (rawSpectrumDb
          (SpectrumProcessor.init 4 1 (1 / 2) "hann") (List.replicate 4 1)) } :=
    congrArg Prod.fst (processSamples_first_call _ _ hw0
      (by simp [SpectrumProcessor.init]) rfl)
  have hraw4 : (rawSpectrumDb (SpectrumProcessor.init 4 1 (1 / 2) "hann")
      (List.replicate 4 1)).length = 4 :=
    rawSpectrumDb_length _ _ hw0 (by simp [SpectrumProcessor.init])
  have huc := updateConfig_fft_only (processSamples
      (SpectrumProcessor.init 4 1 (1 / 2) "hann") (List.replicate 4 1)).1 8
    (by rw [hs1]; show ¬(8 = (SpectrumProcessor.init 4 1 (1 / 2) "hann").fftSize)
        simp [SpectrumProcessor.init])
  have hfft : (updateConfig (processSamples (SpectrumProcessor.init 4 1 (1 / 2) "hann")
      (List.replicate 4 1)).1 none none (some 8)).fftSize = 8 := by
    rw [huc]
  have hwt : (processSamples (SpectrumProcessor.init 4 1 (1 / 2) "hann")
      (List.replicate 4 1)).1.windowType = "hann" := by
    rw [hs1]
    rfl
  have hwin : (updateConfig (processSamples (SpectrumProcessor.init 4 1 (1 / 2) "hann")
      (List.replicate 4 1)).1 none none (some 8)).window.length = 8 := by
    rw [huc]
    show (createWindow (processSamples (SpectrumProcessor.init 4 1 (1 / 2) "hann")
      (List.replicate 4 1)).1.windowType 8).length = 8
    rw [hwt]
    exact createWindow_length "hann" 8 (by omega)
  have hprev2 : (updateConfig (processSamples (SpectrumProcessor.init 4 1 (1 / 2) "hann")
      (List.replicate 4 1)).1 none none (some 8)).previousSpectrum =
      some (rawSpectrumDb (SpectrumProcessor.init 4 1 (1 / 2) "hann")
        (List.replicate 4 1)) := by
    rw [updateConfig_previousSpectrum, hs1]
  have hen2 : (updateConfig (processSamples (SpectrumProcessor.init 4 1 (1 / 2) "hann")
      (List.replicate 4 1)).1 none none (some 8)).enableSmoothing = true := by
    rw [huc]
    show (processSamples (SpectrumProcessor.init 4 1 (1 / 2) "hann")
      (List.replicate 4 1)).1.enableSmoothing = true
    rw [hs1]
    rfl
  have hmm := processSamples_smoothing_mismatch
    (updateConfig (processSamples (SpectrumProcessor.init 4 1 (1 / 2) "hann")
      (List.replicate 4 1)).1 none none (some 8))
    (List.replicate 8 1)
    (rawSpectrumDb (SpectrumProcessor.init 4 1 (1 / 2) "hann") (List.replicate 4 1))
    (by rw [hwin, hfft])
    (by rw [hfft]; simp)
    hprev2
    (by rw [hraw4, hfft]; omega)
    (by rw [hraw4]; omega)
    (by rw [hfft]; omega)
    hen2
  constructor
  · rw [hmm]
  · rw [hmm]
    intro hcontra
    have hrl : (rawSpectrumDb (updateConfig (processSamples
        (SpectrumProcessor.init 4 1 (1 / 2) "hann") (List.replicate 4 1)).1
        none none (some 8)) (List.replicate 8 1)).length = 8 := by
      rw [rawSpectrumDb_length _ _ (by rw [hwin, hfft]) (by rw [hfft]; simp), hfft]
    rw [← hcontra] at hrl
    simp at hrl

/-! ### Configuration validation (claim C4) -/

/-- C4 counterexample: `update_config` applies a non-power-of-two FFT size
(1000) without rejection or clamping, contradicting "validated at
configuration time to be a power of two". -/
theorem c4_counterexample :
    (updateConfig (SpectrumProcessor.init 2048 1 (1 / 2) "hann")
        none none (some 1000)).fftSize = 1000 ∧
    ¬∃ j : Nat, 1000 = 2 ^ j := by
  constructor
  · rw [updateConfig_fft_only _ 1000 (by simp [SpectrumProcessor.init])]
  · rintro ⟨j, hj⟩
    rcases le_or_lt j 9 with h | h
    · have : 2 ^ j ≤ 2 ^ 9 := Nat.pow_le_pow_right (by omega) h
      omega
    · have : 2 ^ 10 ≤ 2 ^ j := Nat.pow_le_pow_right (by omega) h
      omega

/-- C4 (amended): `update_config` performs no FFT-size validation — any new
size is applied unconditionally (window and derived state regenerated for
it); in `set_demodulation`, an invalid mode or an out-of-range bandwidth
raises before any mutation, leaving the prior demodulation configuration in
effect, while a valid request atomically stores the mode and bandwidth and
sets the plugin-enabled flag. -/
theorem c4_validation_boundary :
    (∀ (s : SpectrumState) (n : Nat), n ≠ s.fftSize →
      (updateConfig s none none (some n)).fftSize = n ∧
      (updateConfig s none none (some n)).window = createWindow s.windowType n) ∧
    (∀ (st : DemodConfigState) (mode : String) (bwOpt : Option Int),
      DEMOD_MODES mode = none →
      setDemodulation st mode bwOpt = (st, .error "Invalid demodulation mode")) ∧
    (∀ (st : DemodConfigState) (mode : String) (mc : ModeConfig) (bw : Int),
      DEMOD_MODES mode = some mc →
      ¬(mc.bandwidthMin ≤ bw ∧ bw ≤ mc.bandwidthMax) →
      setDemodulation st mode (some bw) = (st, .error "Bandwidth outside range")) ∧
    (∀ (st : DemodConfigState) (mode : String) (mc : ModeConfig) (bw : Int),
      DEMOD_MODES mode = some mc →
      mc.bandwidthMin ≤ bw → bw ≤ mc.bandwidthMax →
      setDemodulation st mode (some bw) =
        ({ mode := mode, bandwidth := bw,
           demodPluginEnabled := mode != "SPECTRUM" },
          .ok (mode, bw, mode != "SPECTRUM"))) := by
  refine ⟨?_, ?_, ?_, ?_⟩
  · intro s n hne
    rw [updateConfig_fft_only s n hne]
    exact ⟨rfl, rfl⟩
  · intro st mode bwOpt hmode
    unfold setDemodulation
    rw [hmode]
  · intro st mode mc bw hmode hbw
    unfold setDemodulation
    rw [hmode]
    simp only
    rw [if_neg hbw]
  · intro st mode mc bw hmode hbw1 hbw2
    unfold setDemodulation
    rw [hmode]
    simp only
    rw [if_pos ⟨hbw1, hbw2⟩]

theorem c4_validation_boundary_witness :
    (1000 ≠ (SpectrumProcessor.init 2048 1 (1 / 2) "hann").fftSize ∧
      (updateConfig (SpectrumProcessor.init 2048 1 (1 / 2) "hann")
        none none (some 1000)).fftSize = 1000) ∧
    setDemodulation ⟨"SPECTRUM", 2400000, false⟩ "XYZ" none =
      (⟨"SPECTRUM", 2400000, false⟩, .error "Invalid demodulation mode") := by
  have h := c4_validation_boundary
  refine ⟨⟨by simp [SpectrumProcessor.init], ?_⟩, ?_⟩
  · exact (h.1 (SpectrumProcessor.init 2048 1 (1 / 2) "hann") 1000
      (by simp [SpectrumProcessor.init])).1
  · exact h.2.1 ⟨"SPECTRUM", 2400000, false⟩ "XYZ" none (by rfl)

/-! ### Long-chunk segmentation (claim C5) -/

theorem npFftshift_zipWith {α β γ : Type} (f : α → β → γ) (a : List α) (b : List β)
    (h : a.length = b.length) :
    npFftshift (List.zipWith f a b) = List.zipWith f (npFftshift a) (npFftshift b) := by
  unfold npFftshift
  rw [List.length_zipWith, h, min_self]
  rw [List.take_zipWith, List.drop_zipWith]
  rw [List.zipWith_append _ _ _ _ _ (by rw [List.length_drop, List.length_drop, h])]

theorem npFftshift_replicate {α : Type} (n : Nat) (x : α) :
    npFftshift (List.replicate n x) = List.replicate n x := by
  unfold npFftshift
  rw [List.length_replicate, List.drop_replicate, List.take_replicate,
    ← List.replicate_add]
  congr 1
  omega

theorem npFftshift_foldl_zipWith (ps : List (List ℝ)) (n : Nat) :
    ∀ acc : List ℝ, acc.length = n → (∀ p ∈ ps, p.length = n) →
      npFftshift (ps.foldl (fun a q => List.zipWith (· + ·) a q) acc) =
        (ps.map npFftshift).foldl (fun a q => List.zipWith (· + ·) a q)
          (npFftshift acc) := by
  induction ps with
  | nil => intro acc _ _; rfl
  | cons p ps ih =>
      intro acc hacc h
      rw [List.foldl_cons, List.map_cons, List.foldl_cons]
      have hp : p.length = n := h p (by simp)
      rw [ih _ (by rw [List.length_zipWith]; omega) (fun q hq => h q (by simp [hq]))]
      rw [npFftshift_zipWith _ _ _ (by omega)]

theorem foldl_zipWith_getD (ps : List (List ℝ)) :
    ∀ acc : List ℝ, (∀ p ∈ ps, p.length = acc.length) → ∀ j : Nat, j < acc.length →
      (ps.foldl (fun a q => List.zipWith (· + ·) a q) acc).getD j 0 =
        acc.getD j 0 + (ps.map (fun p => p.getD j 0)).sum := by
  induction ps with
  | nil => intro acc _ j _; simp
  | cons p ps ih =>
      intro acc h j hj
      rw [List.foldl_cons, List.map_cons, List.sum_cons]
      have hplen := h p (by simp)
      have hzl : (List.zipWith (· + ·) acc p).length = acc.length := by
        rw [List.length_zipWith]
        omega
      rw [ih _ (fun q hq => by rw [hzl]; exact h q (by simp [hq])) j (by omega)]
      have hz : (List.zipWith (· + ·) acc p).getD j 0 = acc.getD j 0 + p.getD j 0 := by
        rw [List.getD_eq_getElem _ _ (by omega), List.getElem_zipWith,
          List.getD_eq_getElem _ _ (by omega), List.getD_eq_getElem _ _ (by omega)]
      rw [hz]
      ring

theorem processLong_eq (s : SpectrumState) (samples : List ℂ) (m : Nat)
    (hm : 1 ≤ m) (hN : s.fftSize = 2 * m) (hos : s.overlapSamples = m)
    (hw : s.window.length = s.fftSize) (hgt : s.fftSize < samples.length) :
    processLong s samples =
      finishSpectrum s
        (List.map powerToDb
          (npFftshift
            (List.map (· / ((0 + (samples.length - m) / m : ℕ) : ℝ))
              (List.foldl (fun a q => List.zipWith (· + ·) a q)
                (List.replicate s.fftSize 0)
                (List.map (fun (i : Nat) => framePower s samples (0 + i * m))
                  (List.range ((samples.length - m) / m))))))) := by
  have hhop : s.fftSize - s.overlapSamples = m := by omega
  have hnf1 : 1 ≤ (samples.length - s.overlapSamples) / (s.fftSize - s.overlapSamples) := by
    rw [hhop, hos]
    rw [Nat.le_div_iff_mul_le (by omega)]
    omega
  set nf := (samples.length - s.overlapSamples) / (s.fftSize - s.overlapSamples) with hnf
  have hfit : ∀ i < nf, 0 + i * m + s.fftSize ≤ samples.length := by
    intro i hi
    have h1 : (i + 1) * m ≤ nf * m := Nat.mul_le_mul_right m (by omega)
    have h2 : nf * m ≤ samples.length - s.overlapSamples := by
      rw [hnf, hhop]
      exact Nat.div_mul_le_self _ _
    rw [Nat.add_mul] at h1
    omega
  have haccum := accumFrames_spec s samples m hw nf 0 (List.replicate s.fftSize 0) 0
    (List.length_replicate _ _) hfit
  rw [show processLong s samples =
      (if s.fftSize - s.overlapSamples = 0 then (s, ([], []))
       else if (samples.length - s.overlapSamples) / (s.fftSize - s.overlapSamples) = 0
       then
         (if s.fftSize < samples.length then (s, ([], []))
          else processExact s (samples ++ List.replicate (s.fftSize - samples.length) 0))
       else
         match accumFrames s samples (s.fftSize - s.overlapSamples)
             ((samples.length - s.overlapSamples) / (s.fftSize - s.overlapSamples)) 0
             (List.replicate s.fftSize 0) 0 with
         | none => (s, ([], []))
         | some (acc, count) =>
             if count = 0 then (s, ([], []))
             else
               finishSpectrum s ((npFftshift (acc.map (· / (count : ℝ)))).map powerToDb))
      from rfl]
  rw [if_neg (show ¬(s.fftSize - s.overlapSamples = 0) from by omega)]
  rw [← hnf]
  rw [if_neg (show ¬(nf = 0) from by omega)]
  rw [hhop]
  rw [haccum]
  simp only
  rw [if_neg (show ¬(0 + nf = 0) from by omega)]
  rw [show nf = (samples.length - m) / m from by rw [hnf, hhop, hos]]

/-- C5: a chunk strictly longer than the FFT size is segmented into
`fft_size`-length frames at stride `fft_size/2` (50% overlap), each frame is
windowed and its power spectrum taken, the per-frame powers are averaged in
the linear domain, and dB conversion happens exactly once, after the
average, before the smoothing/store step; a chunk of exactly the FFT size is
processed as a single frame with no segmentation; a shorter chunk is
zero-padded on the right to exactly the FFT size. -/
theorem c5_long_chunk_segmentation (s : SpectrumState) (samples : List ℂ) (m : Nat)
    (hm : 1 ≤ m) (hN : s.fftSize = 2 * m) (hval : ValidState s)
    (hov : s.overlap = 1 / 2) :
    (s.fftSize < samples.length →
      ∃ db : List ℝ,
        processSamples s samples = finishSpectrum s db ∧
        db.length = s.fftSize ∧
        1 ≤ (samples.length - s.fftSize / 2) / (s.fftSize / 2) ∧
        (∀ j : Nat, j < s.fftSize →
          db.getD j 0 = powerToDb
            ((((List.range ((samples.length - s.fftSize / 2) / (s.fftSize / 2))).map
                fun (i : Nat) =>
                  (npFftshift (framePower s samples (i * (s.fftSize / 2)))).getD j 0).sum /
              (((samples.length - s.fftSize / 2) / (s.fftSize / 2) : ℕ) : ℝ))))) ∧
    (samples.length = s.fftSize → processSamples s samples = processExact s samples) ∧
    (samples.length < s.fftSize →
      processSamples s samples =
        processExact s (samples ++ List.replicate (s.fftSize - samples.length) 0)) := by
  obtain ⟨hw, hfreq, hovS, hprev, hsf0, hsf1⟩ := hval
  have hos : s.overlapSamples = m := by
    rw [hovS, hN, hov]
    rw [show ((2 * m : ℕ) : ℝ) * (1 / 2) = ((m : ℕ) : ℝ) by push_cast; ring]
    rw [Int.floor_natCast]
    simp
  have h2 : s.fftSize / 2 = m := by omega
  refine ⟨?_, ?_, ?_⟩
  · intro hgt
    have hps : processSamples s samples = processLong s samples := by
      unfold processSamples
      rw [if_neg (by omega), if_pos hgt]
    set nf := (samples.length - m) / m with hnfdef
    have hnf1 : 1 ≤ nf := by
      rw [hnfdef, Nat.le_div_iff_mul_le (by omega)]
      omega
    have hfit : ∀ i < nf, 0 + i * m + s.fftSize ≤ samples.length := by
      intro i hi
      have h1 : (i + 1) * m ≤ nf * m := Nat.mul_le_mul_right m (by omega)
      have hh2 : nf * m ≤ samples.length - m := by
        rw [hnfdef]
        exact Nat.div_mul_le_self _ _
      rw [Nat.add_mul] at h1
      omega
    have hplens : ∀ p ∈ (List.range nf).map fun (i : Nat) =>
        framePower s samples (0 + i * m), p.length = s.fftSize := by
      intro p hp
      obtain ⟨i, hir, hieq⟩ := List.mem_map.mp hp
      rw [← hieq]
      exact framePower_length s samples _ hw (hfit i (List.mem_range.mp hir))
    set accFinal := (((List.range nf).map fun (i : Nat) =>
      framePower s samples (0 + i * m)).foldl
        (fun a q => List.zipWith (· + ·) a q) (List.replicate s.fftSize 0)) with haccdef
    have hacclen : accFinal.length = s.fftSize := by
      rw [haccdef, foldl_zipWith_length _ _
        (by intro p hp; rw [List.length_replicate]; exact hplens p hp),
        List.length_replicate]
    refine ⟨(npFftshift (accFinal.map (· / (((0 + nf : ℕ)) : ℝ)))).map powerToDb,
      ?_, ?_, ?_, ?_⟩
    · rw [hps, processLong_eq s samples m hm hN hos hw hgt]
    · rw [List.length_map, npFftshift_length, List.length_map]
      exact hacclen
    · rw [h2]
      exact hnf1
    · intro j hj
      have hshift : npFftshift (accFinal.map (· / (((0 + nf : ℕ)) : ℝ))) =
          (npFftshift accFinal).map (· / (((0 + nf : ℕ)) : ℝ)) :=
        npFftshift_map _ _
      have hacc2 : npFftshift accFinal =
          (((List.range nf).map fun (i : Nat) =>
            framePower s samples (0 + i * m)).map npFftshift).foldl
              (fun a q => List.zipWith (· + ·) a q) (List.replicate s.fftSize 0) := by
        rw [haccdef, npFftshift_foldl_zipWith _ s.fftSize _
          (List.length_replicate _ _) hplens, npFftshift_replicate]
      have hshiftlens : ∀ p ∈ ((List.range nf).map fun (i : Nat) =>
          framePower s samples (0 + i * m)).map npFftshift,
          p.length = (List.replicate s.fftSize (0 : ℝ)).length := by
        intro p hp
        obtain ⟨q, hq, hqe⟩ := List.mem_map.mp hp
        rw [← hqe, npFftshift_length, List.length_replicate]
        exact hplens q hq
      have hrep0 : (List.replicate s.fftSize (0 : ℝ)).getD j 0 = 0 := by
        rw [List.getD_eq_getElem _ _ (by rw [List.length_replicate]; omega)]
        exact List.getElem_replicate _ _
      rw [List.getD_eq_getElem _ _
        (by rw [List.length_map, npFftshift_length, List.length_map]; omega)]
      rw [List.getElem_map]
      rw [← List.getD_eq_getElem _ (0 : ℝ)
        (by rw [npFftshift_length, List.length_map]; omega)]
      rw [hshift]
      rw [List.getD_eq_getElem _ _
        (by rw [List.length_map, npFftshift_length]; omega)]
      rw [List.getElem_map]
      rw [← List.getD_eq_getElem _ (0 : ℝ) (by rw [npFftshift_length]; omega)]
      rw [hacc2]
      rw [foldl_zipWith_getD _ _ (fun p hp => hshiftlens p hp) j
        (by rw [List.length_replicate]; omega)]
      rw [hrep0, List.map_map, List.map_map]
      simp only [zero_add, Function.comp, h2, ← hnfdef]
      rfl
  · intro heq
    exact processSamples_eq_exact s samples heq
  · intro hlt
    unfold processSamples
    rw [if_pos hlt]

theorem c5_long_chunk_segmentation_witness :
    ValidState (SpectrumProcessor.init 4 1 (1 / 2) "hann") ∧
    processSamples (SpectrumProcessor.init 4 1 (1 / 2) "hann")
        (List.replicate 4 0) =
      processExact (SpectrumProcessor.init 4 1 (1 / 2) "hann")
        (List.replicate 4 0) := by
  have hval : ValidState (SpectrumProcessor.init 4 1 (1 / 2) "hann") := by
    refine ⟨?_, rfl, rfl, ?_, ?_, ?_⟩
    · show (createWindow "hann" 4).length = 4
      exact createWindow_length "hann" 4 (by omega)
    · intro p hp
      simp [SpectrumProcessor.init] at hp
    · norm_num [SpectrumProcessor.init]
    · norm_num [SpectrumProcessor.init]
  refine ⟨hval, ?_⟩
  exact (c5_long_chunk_segmentation (SpectrumProcessor.init 4 1 (1 / 2) "hann")
    (List.replicate 4 0) 2 (by omega) rfl hval rfl).2.1
    (by simp [SpectrumProcessor.init])

/-! ### AGC boundedness (claim C8) -/

theorem applyAgc_bounded (lib : DSPLib) (aud : List ℝ) (t : ℝ) :
    ∀ x ∈ applyAgc lib aud t, |x| ≤ 1 := by
  intro x hx
  unfold applyAgc at hx
  split_ifs at hx with h
  · rw [List.length_eq_zero] at h
    subst h
    simp at hx
  · obtain ⟨y, _, hy⟩ := List.mem_map.mp hx
    subst hy
    rw [abs_le]
    exact ⟨le_max_left _ _, max_le (by norm_num) (min_le_left _ _)⟩

/-- C8: for every input chunk and every demodulator, the returned audio is
bounded by 1 in absolute value: the AGC is the final processing step and its
unconditional closing clip confines every sample to [-1, 1] (the error
fallback, all-zero audio, is bounded as well). -/
theorem c8_agc_final_bound (lib : DSPLib) (ar : ℝ) (iq : List ℂ) (sr : ℝ)
    (bw : Option ℝ) (dev : ℝ) (mode : String) (tone cwbw : ℝ) :
    (∀ x ∈ amDemodulate lib ar iq sr bw, |x| ≤ 1) ∧
    (∀ x ∈ fmDemodulate lib ar iq sr bw dev, |x| ≤ 1) ∧
    (∀ x ∈ ssbDemodulate lib ar iq mode sr bw, |x| ≤ 1) ∧
    (∀ x ∈ cwDemodulate lib ar iq sr tone cwbw, |x| ≤ 1) := by
  refine ⟨?_, ?_, ?_, ?_⟩
  · intro x hx
    unfold amDemodulate at hx
    exact applyAgc_bounded _ _ _ x hx
  · intro x hx
    simp only [fmDemodulate] at hx
    split_ifs at hx with h
    · simp at hx
    all_goals exact applyAgc_bounded _ _ _ x hx
  · intro x hx
    simp only [ssbDemodulate] at hx
    split_ifs at hx
    · exact applyAgc_bounded _ _ _ x hx
    · exact applyAgc_bounded _ _ _ x hx
    · rw [List.eq_of_mem_replicate hx]
      norm_num
  · intro x hx
    unfold cwDemodulate at hx
    exact applyAgc_bounded _ _ _ x hx

theorem c8_agc_final_bound_witness :
    (0 : ℝ) ∈ ssbDemodulate idLib 48000 [0] "xyz" 2400000 none ∧ |(0 : ℝ)| ≤ 1 := by
  have hmem : (0 : ℝ) ∈ ssbDemodulate idLib 48000 [0] "xyz" 2400000 none := by
    unfold ssbDemodulate
    rw [show pyLower "xyz" = "xyz" from rfl]
    rw [if_neg (by decide)]
    simp
  exact ⟨hmem,
    (c8_agc_final_bound idLib 48000 [0] 2400000 none 75000 "xyz" 600 500).2.2.1 0 hmem⟩

/-! ### USB/LSB coincidence (claim C10) -/

/-- C10: because the real part of the complex conjugate equals the real part
itself, the USB and LSB paths of `ssb_demodulate` extract the same signal
and all subsequent processing coincides, so the two modes return exactly the
same audio for every input. -/
theorem c10_usb_lsb_identical (lib : DSPLib) (ar : ℝ) (iq : List ℂ) (sr : ℝ)
    (bw : Option ℝ) :
    ssbDemodulate lib ar iq "usb" sr bw = ssbDemodulate lib ar iq "lsb" sr bw := by
  have hmap : iq.map (fun z => ((starRingEnd ℂ) z).re) = iq.map Complex.re := by
    simp
  unfold ssbDemodulate
  rw [show pyLower "usb" = "usb" from rfl, show pyLower "lsb" = "lsb" from rfl]
  rw [if_pos (show ("usb" : String) = "usb" ∨ ("usb" : String) = "lsb" from Or.inl rfl)]
  rw [if_pos (show ("lsb" : String) = "usb" ∨ ("lsb" : String) = "lsb" from Or.inr rfl)]
  simp only [if_true]
  rw [if_neg (show ¬("lsb" : String) = "usb" by decide), hmap]

/-! ### SSB structure (claim C9) -/

theorem applyAudioFilter_ssb_design (lib : DSPLib) (aud : List ℝ) (sr bw : ℝ)
    (hbw1 : 300 < bw) (hbw2 : bw < 0.475 * sr) :
    applyAudioFilter lib aud sr bw "bandpass" (some 300) (some bw) =
      lib.sosfilt (FilterKind.bandpass 4 (300 / (sr / 2)) (bw / (sr / 2))) aud := by
  have hsr : 0 < sr := by nlinarith
  have hnyq : 0 < sr / 2 := by linarith
  unfold applyAudioFilter
  rw [if_neg (show ¬("bandpass" : String) = "lowpass" by decide),
    if_pos (show ("bandpass" : String) = "bandpass" from rfl)]
  simp only
  rw [if_neg (show ¬(300 : ℝ) = 0 by norm_num)]
  rw [if_neg (show ¬bw = 0 by intro h; rw [h] at hbw1; norm_num at hbw1)]
  rw [show max (300 : ℝ) 1 = 300 from max_eq_left (by norm_num)]
  rw [show min bw (sr / 2 * 0.95) = bw from min_eq_left (by nlinarith)]
  rw [if_pos (show (300 : ℝ) / (sr / 2) < bw / (sr / 2) from
    (div_lt_div_iff_of_pos_right hnyq).mpr hbw1)]
  rw [if_pos (show 0 < (300 : ℝ) / (sr / 2) ∧ bw / (sr / 2) < 1 from
    ⟨div_pos (by norm_num) hnyq, (div_lt_one hnyq).mpr (by linarith)⟩)]

/-- C9: USB extracts the real part of the IQ samples, LSB the real part of
the complex conjugate; in both modes the extracted signal is then bandpass
filtered from 300 Hz to the configured bandwidth (2700 Hz when none is
given) before resampling and AGC; any other mode is rejected (the internal
`ValueError` surfaces as all-zero audio of the input length through the
catch-all handler). -/
theorem c9_ssb_demodulation (lib : DSPLib) (ar : ℝ) (iq : List ℂ) (sr bw : ℝ)
    (hbw1 : 300 < bw) (hbw2 : bw < 0.475 * sr) :
    ssbDemodulate lib ar iq "usb" sr (some bw) =
      applyAgc lib (resampleStep lib
        (lib.sosfilt (FilterKind.bandpass 4 (300 / (sr / 2)) (bw / (sr / 2)))
          (iq.map Complex.re)) sr ar) 0.4 ∧
    ssbDemodulate lib ar iq "lsb" sr (some bw) =
      applyAgc lib (resampleStep lib
        (lib.sosfilt (FilterKind.bandpass 4 (300 / (sr / 2)) (bw / (sr / 2)))
          (iq.map fun z => ((starRingEnd ℂ) z).re)) sr ar) 0.4 ∧
    (∀ mode : String, ssbDemodulate lib ar iq mode sr none =
      ssbDemodulate lib ar iq mode sr (some 2700)) ∧
    (∀ mode : String, ¬(pyLower mode = "usb" ∨ pyLower mode = "lsb") →
      ssbDemodulate lib ar iq mode sr (some bw) = List.replicate iq.length 0) := by
  refine ⟨?_, ?_, ?_, ?_⟩
  · unfold ssbDemodulate
    rw [show pyLower "usb" = "usb" from rfl]
    rw [if_pos (Or.inl rfl)]
    simp only [if_true, Option.getD_some]
    rw [applyAudioFilter_ssb_design lib _ sr bw hbw1 hbw2]
  · unfold ssbDemodulate
    rw [show pyLower "lsb" = "lsb" from rfl]
    rw [if_pos (Or.inr rfl)]
    simp only [Option.getD_some]
    rw [if_neg (show ¬("lsb" : String) = "usb" by decide)]
    rw [applyAudioFilter_ssb_design lib _ sr bw hbw1 hbw2]
  · intro mode
    rfl
  · intro mode hmode
    unfold ssbDemodulate
    rw [if_neg hmode]

theorem c9_ssb_demodulation_witness :
    ((300 : ℝ) < 2000 ∧ (2000 : ℝ) < 0.475 * 48000) ∧
    ssbDemodulate idLib 48000 [Complex.I] "usb" 48000 (some 2000) =
      applyAgc idLib (resampleStep idLib
        (idLib.sosfilt (FilterKind.bandpass 4 (300 / (48000 / 2)) (2000 / (48000 / 2)))
          ([Complex.I].map Complex.re)) 48000 48000) 0.4 :=
  ⟨⟨by norm_num, by norm_num⟩,
    (c9_ssb_demodulation idLib 48000 [Complex.I] 48000 2000
      (by norm_num) (by norm_num)).1⟩

/-! ### Silence safety of the demodulators (claim C7) -/

theorem zipWith_replicate {α β γ : Type} (f : α → β → γ) (n m : Nat)
    (a : α) (b : β) :
    List.zipWith f (List.replicate n a) (List.replicate m b) =
      List.replicate (min n m) (f a b) := by
  induction n generalizing m with
  | zero => simp
  | succ k ih =>
      cases m with
      | zero => simp
      | succ j =>
          rw [List.replicate_succ, List.replicate_succ, List.zipWith_cons_cons, ih,
            Nat.succ_min_succ, List.replicate_succ]

theorem zipWith_const_left {α β γ : Type} (f : α → β → γ) (c : α) (g : γ)
    (h : ∀ b, f c b = g) :
    ∀ (ys : List β) (n : Nat), ys.length = n →
      List.zipWith f (List.replicate n c) ys = List.replicate n g := by
  intro ys
  induction ys with
  | nil =>
      intro n hn
      rw [← hn]
      rfl
  | cons y ys ih =>
      intro n hn
      cases n with
      | zero => simp at hn
      | succ k =>
          rw [List.replicate_succ, List.zipWith_cons_cons, h y,
            ih k (by simpa using hn), List.replicate_succ]

theorem applyAudioFilter_zeros (lib : DSPLib)
    (hsos : ∀ k n, lib.sosfilt k (List.replicate n 0) = List.replicate n 0)
    (n : Nat) (sr bw : ℝ) (ft : String) (lc hc : Option ℝ) :
    applyAudioFilter lib (List.replicate n 0) sr bw ft lc hc =
      List.replicate n 0 := by
  unfold applyAudioFilter
  split_ifs <;> simp [hsos]

theorem applyDeemphasis_zeros (lib : DSPLib)
    (hffb : ∀ wn n, lib.filtfiltButter1 wn (List.replicate n 0) = List.replicate n 0)
    (n : Nat) (sr tc : ℝ) :
    applyDeemphasis lib (List.replicate n 0) sr tc = List.replicate n 0 := by
  simp only [applyDeemphasis]
  split_ifs <;> simp [hffb]

theorem resampleStep_zeros (lib : DSPLib)
    (hres : ∀ n msize, lib.resample (List.replicate n 0) msize = List.replicate msize 0)
    (n : Nat) (inr outr : ℝ) (hin : inr ≠ 0) :
    resampleStep lib (List.replicate n 0) inr outr =
      List.replicate (resampledLength n inr outr) 0 := by
  unfold resampleStep resampledLength
  rw [List.length_replicate]
  split_ifs with h
  · rw [h, div_self (h ▸ hin), mul_one, Int.floor_natCast]
    simp
  · exact hres n _

theorem applyAgc_zeros (lib : DSPLib)
    (hffma : ∀ w n, lib.filtfiltMA w (List.replicate n 0) = List.replicate n 0)
    (n : Nat) (t : ℝ) :
    applyAgc lib (List.replicate n 0) t = List.replicate n 0 := by
  simp only [applyAgc, List.map_replicate, abs_zero, List.length_replicate,
    List.sum_replicate, smul_zero, zero_div]
  split_ifs with h1 h2 h3 h4
  · rfl
  · exfalso
    rw [hffma] at h3
    obtain ⟨e, hmem, hlt⟩ := h3
    rw [List.eq_of_mem_replicate hmem] at hlt
    norm_num at hlt
  · rw [List.map_replicate]
    norm_num
  · exfalso
    obtain ⟨e, hmem, hlt⟩ := h4
    rw [List.eq_of_mem_replicate hmem] at hlt
    norm_num at hlt
  · rw [List.map_replicate]
    norm_num

theorem amDemodulate_zeros (lib : DSPLib)
    (hsos : ∀ k n, lib.sosfilt k (List.replicate n 0) = List.replicate n 0)
    (hffma : ∀ w n, lib.filtfiltMA w (List.replicate n 0) = List.replicate n 0)
    (hres : ∀ n msize, lib.resample (List.replicate n 0) msize = List.replicate msize 0)
    (ar sr : ℝ) (hsr : sr ≠ 0) (L : Nat) (bw : Option ℝ) :
    amDemodulate lib ar (List.replicate L 0) sr bw =
      List.replicate (resampledLength L sr ar) 0 := by
  cases bw with
  | none =>
      simp only [amDemodulate, List.map_replicate, map_zero, List.sum_replicate,
        smul_zero, zero_div, sub_zero]
      rw [resampleStep_zeros lib hres L sr ar hsr, applyAgc_zeros lib hffma]
  | some b =>
      simp only [amDemodulate, List.map_replicate, map_zero, List.sum_replicate,
        smul_zero, zero_div, sub_zero]
      by_cases hb : b < sr / 2
      · rw [if_pos hb, applyAudioFilter_zeros lib hsos,
          resampleStep_zeros lib hres L sr ar hsr, applyAgc_zeros lib hffma]
      · rw [if_neg hb, resampleStep_zeros lib hres L sr ar hsr,
          applyAgc_zeros lib hffma]

theorem headD_replicate_self {α : Type} (n : Nat) (a : α) :
    (List.replicate n a).head?.getD a = a := by
  cases n <;> rfl

theorem cons_self_replicate {α : Type} (n : Nat) (a : α) :
    a :: List.replicate n a = List.replicate (n + 1) a :=
  (List.replicate_succ a n).symm

theorem min_self_succ (n : Nat) : min n (n + 1) = n :=
  min_eq_left (Nat.le_succ n)

theorem zip_replicate_self {α β : Type} (n : Nat) (a : α) (b : β) :
    (List.replicate n a).zip (List.replicate n b) = List.replicate n (a, b) := by
  unfold List.zip
  rw [zipWith_replicate, min_self]

theorem zipWith_zero_mul_conj (ys : List ℂ) (n : Nat) (h : ys.length = n) :
    List.zipWith (fun z b => z * (starRingEnd ℂ) b) (List.replicate n (0 : ℂ)) ys =
      List.replicate n 0 :=
  zipWith_const_left _ _ _ (fun b => zero_mul ((starRingEnd ℂ) b)) ys n h

theorem fmDemodulate_zeros (lib : DSPLib)
    (hsos : ∀ k n, lib.sosfilt k (List.replicate n 0) = List.replicate n 0)
    (hffb : ∀ wn n, lib.filtfiltButter1 wn (List.replicate n 0) = List.replicate n 0)
    (hffma : ∀ w n, lib.filtfiltMA w (List.replicate n 0) = List.replicate n 0)
    (hres : ∀ n msize, lib.resample (List.replicate n 0) msize = List.replicate msize 0)
    (ar sr dev : ℝ) (hsr : sr ≠ 0) (L : Nat) (bw : Option ℝ) :
    fmDemodulate lib ar (List.replicate L 0) sr bw dev =
      List.replicate (resampledLength L sr ar) 0 := by
  have h10 : (0 : ℝ) < 1e-10 := by norm_num
  by_cases hL : L = 0
  · subst hL
    simp [fmDemodulate, resampledLength]
  · cases bw with
    | none =>
        simp [fmDemodulate, hL, h10, hsr, zipWith_replicate, cons_self_replicate,
          headD_replicate_self, min_self_succ, zip_replicate_self,
          applyAudioFilter_zeros lib hsos, applyDeemphasis_zeros lib hffb,
          resampleStep_zeros lib hres, applyAgc_zeros lib hffma]
    | some b =>
        simp [fmDemodulate, hL, h10, hsr, zipWith_replicate, cons_self_replicate,
          headD_replicate_self, min_self_succ, zip_replicate_self,
          applyAudioFilter_zeros lib hsos, applyDeemphasis_zeros lib hffb,
          resampleStep_zeros lib hres, applyAgc_zeros lib hffma]

theorem ssbDemodulate_zeros (lib : DSPLib)
    (hsos : ∀ k n, lib.sosfilt k (List.replicate n 0) = List.replicate n 0)
    (hffma : ∀ w n, lib.filtfiltMA w (List.replicate n 0) = List.replicate n 0)
    (hres : ∀ n msize, lib.resample (List.replicate n 0) msize = List.replicate msize 0)
    (ar sr : ℝ) (hsr : sr ≠ 0) (L : Nat) (mode : String) (bw : Option ℝ)
    (hm : pyLower mode = "usb" ∨ pyLower mode = "lsb") :
    ssbDemodulate lib ar (List.replicate L 0) mode sr bw =
      List.replicate (resampledLength L sr ar) 0 := by
  rcases hm with h | h
  · simp [ssbDemodulate, h, hsr, applyAudioFilter_zeros lib hsos,
      resampleStep_zeros lib hres, applyAgc_zeros lib hffma]
  · simp [ssbDemodulate, h, show ("lsb" : String) ≠ "usb" from by decide, hsr,
      applyAudioFilter_zeros lib hsos, resampleStep_zeros lib hres,
      applyAgc_zeros lib hffma]

theorem ssbDemodulate_invalid_mode (lib : DSPLib) (ar sr : ℝ)
    (samples : List ℂ) (mode : String) (bw : Option ℝ)
    (hm : ¬(pyLower mode = "usb" ∨ pyLower mode = "lsb")) :
    ssbDemodulate lib ar samples mode sr bw = List.replicate samples.length 0 := by
  simp only [ssbDemodulate, if_neg hm]

theorem cwDemodulate_zeros (lib : DSPLib)
    (hsos : ∀ k n, lib.sosfilt k (List.replicate n 0) = List.replicate n 0)
    (hffma : ∀ w n, lib.filtfiltMA w (List.replicate n 0) = List.replicate n 0)
    (hres : ∀ n msize, lib.resample (List.replicate n 0) msize = List.replicate msize 0)
    (ar sr : ℝ) (hsr : sr ≠ 0) (L : Nat) (tone cbw : ℝ) :
    cwDemodulate lib ar (List.replicate L 0) sr tone cbw =
      List.replicate (resampledLength L sr ar) 0 := by
  simp [cwDemodulate, zipWith_zero_mul_conj, hsr,
    applyAudioFilter_zeros lib hsos, resampleStep_zeros lib hres,
    applyAgc_zeros lib hffma]

/-- C7: every demodulator (AM, FM, SSB, CW) is silence-safe.  Assuming the
documented contracts of the external scipy filters and resampler (each maps
an all-zero buffer to an all-zero buffer of the same, respectively the
requested, length) and a non-zero input sample rate, an all-zero input
chunk of any length produces finite, exactly all-zero audio of length
`int(len * audio_rate / sample_rate)` — the expected resampled length — in
all four demodulators, with no exception escaping (every raise in the
source is a branch of the total functions here, including the division by
near-zero magnitudes, which is floored at 1e-10).  Moreover SSB's internal
`ValueError` path for an unknown mode is converted by the except handler to
all-zero audio of the input length for ANY input, not just silence. -/
theorem c7_demod_silence_safety (lib : DSPLib)
    (hsos : ∀ k n, lib.sosfilt k (List.replicate n 0) = List.replicate n 0)
    (hffb : ∀ wn n, lib.filtfiltButter1 wn (List.replicate n 0) = List.replicate n 0)
    (hffma : ∀ w n, lib.filtfiltMA w (List.replicate n 0) = List.replicate n 0)
    (hres : ∀ n msize, lib.resample (List.replicate n 0) msize = List.replicate msize 0)
    (ar sr dev tone cbw : ℝ) (hsr : sr ≠ 0) (L : Nat) (bw : Option ℝ)
    (mode : String) (hm : pyLower mode = "usb" ∨ pyLower mode = "lsb")
    (samples : List ℂ) (badMode : String)
    (hbad : ¬(pyLower badMode = "usb" ∨ pyLower badMode = "lsb")) :
    amDemodulate lib ar (List.replicate L 0) sr bw =
        List.replicate (resampledLength L sr ar) 0 ∧
      fmDemodulate lib ar (List.replicate L 0) sr bw dev =
        List.replicate (resampledLength L sr ar) 0 ∧
      ssbDemodulate lib ar (List.replicate L 0) mode sr bw =
        List.replicate (resampledLength L sr ar) 0 ∧
      cwDemodulate lib ar (List.replicate L 0) sr tone cbw =
        List.replicate (resampledLength L sr ar) 0 ∧
      ssbDemodulate lib ar samples badMode sr bw =
        List.replicate samples.length 0 :=
  ⟨amDemodulate_zeros lib hsos hffma hres ar sr hsr L bw,
   fmDemodulate_zeros lib hsos hffb hffma hres ar sr dev hsr L bw,
   ssbDemodulate_zeros lib hsos hffma hres ar sr hsr L mode bw hm,
   cwDemodulate_zeros lib hsos hffma hres ar sr hsr L tone cbw,
   ssbDemodulate_invalid_mode lib ar sr samples badMode bw hbad⟩

/-- C7 witness: the silence-safety theorem at the identity scipy
collaborator, a 3-sample all-zero chunk, unit rates, FM deviation 75 kHz,
CW tone 700 Hz, mode "USB" and the invalid mode "am" on a non-zero
sample. -/
theorem c7_demod_silence_safety_witness :
    (∀ k n, idLib.sosfilt k (List.replicate n 0) = List.replicate n 0) ∧
    (∀ wn n, idLib.filtfiltButter1 wn (List.replicate n 0) = List.replicate n 0) ∧
    (∀ w n, idLib.filtfiltMA w (List.replicate n 0) = List.replicate n 0) ∧
    (∀ n msize, idLib.resample (List.replicate n 0) msize = List.replicate msize 0) ∧
    (1 : ℝ) ≠ 0 ∧
    (pyLower "USB" = "usb" ∨ pyLower "USB" = "lsb") ∧
    ¬(pyLower "am" = "usb" ∨ pyLower "am" = "lsb") ∧
    (amDemodulate idLib 1 (List.replicate 3 0) 1 none =
        List.replicate (resampledLength 3 1 1) 0 ∧
      fmDemodulate idLib 1 (List.replicate 3 0) 1 none 75000 =
        List.replicate (resampledLength 3 1 1) 0 ∧
      ssbDemodulate idLib 1 (List.replicate 3 0) "USB" 1 none =
        List.replicate (resampledLength 3 1 1) 0 ∧
      cwDemodulate idLib 1 (List.replicate 3 0) 1 700 500 =
        List.replicate (resampledLength 3 1 1) 0 ∧
      ssbDemodulate idLib 1 [Complex.I] "am" 1 none =
        List.replicate [Complex.I].length 0) :=
  ⟨fun _ _ => rfl, fun _ _ => rfl, fun _ _ => rfl, fun _ _ => rfl,
   by norm_num, Or.inl (by decide), by decide,
   c7_demod_silence_safety idLib (fun _ _ => rfl) (fun _ _ => rfl)
     (fun _ _ => rfl) (fun _ _ => rfl) 1 1 75000 700 500 (by norm_num) 3 none
     "USB" (Or.inl (by decide)) [Complex.I] "am" (by decide)⟩

end H1SDR
